/-
Verification of the document ingestion & retrieval core of a small RAG
application (backend/services/document_service.py) against its
natural-language specification.

The Python code is shallowly embedded: texts are `List Char`, Python dicts
are association lists built only through `dictSet` (insertion-order
preserving, first-occurrence update, like CPython), `datetime.now()` is a
logical clock threaded through each operation (each call returns the
current tick and advances it), `uuid.uuid4()` is a fresh-id counter, and
the Qdrant collection is a list of points.  The possibly non-terminating
`while` loop of `chunk_text` is embedded with explicit fuel: `none` means
the loop was still running when the fuel ran out.
-/
import Mathlib

set_option autoImplicit false
set_option maxRecDepth 2000
set_option linter.unusedVariables false
set_option linter.unusedTactic false

namespace RagApp

/-! ### Python string primitives -/

/-- Python `str.strip()` whitespace test (ASCII subset actually reachable
here: space, tab, newline, carriage return, vertical tab, form feed). -/
def pyIsSpace (c : Char) : Bool :=
  c = ' ' || c = '\t' || c = '\n' || c = '\r' || c = Char.ofNat 11 || c = Char.ofNat 12

/-- Python `s.strip()` on a list of characters. -/
def pyStrip (l : List Char) : List Char :=
  ((l.dropWhile pyIsSpace).reverse.dropWhile pyIsSpace).reverse

/-- Normalisation of one Python slice index: a negative index counts from
the end (clamped at 0), a non-negative one is clamped at the length. -/
def pyIdx (n : Nat) (i : Int) : Nat :=
  if i < 0 then ((n : Int) + i).toNat else min i.toNat n

/-- Python `text[a:b]` (slice semantics, including negative indices). -/
def pySlice (text : List Char) (a b : Int) : List Char :=
  (text.take (pyIdx text.length b)).drop (pyIdx text.length a)

/-! ### chunk_text (document_service.py lines 59-86) -/

/-- `sentence_endings = ['. ', '! ', '? ', '\n\n']` (line 70). -/
def sentence_endings : List (List Char) := [['.', ' '], ['!', ' '], ['?', ' '], ['\n', '\n']]

/-- `text[i:i+len(ending)] == ending` (line 75); `i` is always ≥ 0 there. -/
def matchesAt (text : List Char) (i : Nat) (pat : List Char) : Bool :=
  decide ((text.drop i).take pat.length = pat)

/-- The inner scan of lines 71-76: `best_break = end`, then for
`i in range(max(0, end-100), end)` and each ending, overwrite
`best_break = i + len(ending)` on a match (so the rightmost match wins). -/
def bestBreak (text : List Char) (e : Nat) : Nat :=
  (List.range' (e - 100) (e - (e - 100))).foldl
    (fun best i =>
      sentence_endings.foldl
        (fun b ending => if matchesAt text i ending then i + ending.length else b)
        best)
    e

/-- One full evaluation of the candidate end for the current `start`
(lines 65-78).  The boundary scan only runs when `end < len(text)`; a
negative candidate end (possible once `start` has gone negative) makes the
Python `range` empty, so `best_break` stays at `end`. -/
def chunkEnd (chunk_size : Nat) (text : List Char) (start : Int) : Int :=
  let e0 : Int := start + (chunk_size : Int)
  if e0 < (text.length : Int) then
    if 0 ≤ e0 then (bestBreak text e0.toNat : Int) else e0
  else e0

/-- The `while start < len(text)` loop of lines 64-84, with fuel.
`start` is an `Int` because `start = end - self.chunk_overlap` (line 84)
can go negative; Python then slices with negative indices. -/
def chunkTextAux (chunk_size chunk_overlap : Nat) (text : List Char) :
    Nat → Int → List (List Char) → Option (List (List Char))
  | 0, _, _ => none
  | fuel + 1, start, chunks =>
    if start < (text.length : Int) then
      let e : Int := chunkEnd chunk_size text start
      let chunk := pyStrip (pySlice text start e)
      let chunks' := if chunk = [] then chunks else chunks ++ [chunk]
      chunkTextAux chunk_size chunk_overlap text fuel (e - (chunk_overlap : Int)) chunks'
    else some chunks

/-- `chunk_text` (lines 59-86): `chunks = []`, `start = 0`, then the loop.
Returns `none` when the loop is still running after `fuel` iterations. -/
def chunk_text (chunk_size chunk_overlap : Nat) (text : List Char) (fuel : Nat) :
    Option (List (List Char)) :=
  chunkTextAux chunk_size chunk_overlap text fuel 0 []

example : chunk_text 1000 200 ['h', 'i'] 5 = some [['h', 'i']] := by decide

example :
    chunk_text 5 1 ['a', 'a', 'a', 'a', 'a', 'a', 'a', 'a'] 10 =
      some [['a', 'a', 'a', 'a', 'a'], ['a', 'a', 'a', 'a']] := by decide

/-- Unfolding of one loop iteration (definitional). -/
theorem chunkTextAux_succ (chunk_size chunk_overlap : Nat) (text : List Char)
    (fuel : Nat) (start : Int) (chunks : List (List Char)) :
    chunkTextAux chunk_size chunk_overlap text (fuel + 1) start chunks =
      if start < (text.length : Int) then
        chunkTextAux chunk_size chunk_overlap text fuel
          (chunkEnd chunk_size text start - (chunk_overlap : Int))
          (if pyStrip (pySlice text start (chunkEnd chunk_size text start)) = [] then chunks
           else chunks ++ [pyStrip (pySlice text start (chunkEnd chunk_size text start))])
      else some chunks := rfl

theorem chunkTextAux_zero (chunk_size chunk_overlap : Nat) (text : List Char)
    (start : Int) (chunks : List (List Char)) :
    chunkTextAux chunk_size chunk_overlap text 0 start chunks = none := rfl

theorem pyIdx_zero (n : Nat) : pyIdx n 0 = 0 := by simp [pyIdx]

theorem pyIdx_ge (n : Nat) (b : Int) (hb : (n : Int) ≤ b) : pyIdx n b = n := by
  unfold pyIdx
  rw [if_neg (by omega)]
  omega

/-- A slice `text[0:b]` with `b ≥ len(text)` is the whole text. -/
theorem pySlice_all (text : List Char) (b : Int) (hb : (text.length : Int) ≤ b) :
    pySlice text 0 b = text := by
  unfold pySlice
  rw [pyIdx_zero, pyIdx_ge _ _ hb, List.take_length, List.drop_zero]

/-! ### Non-termination of the chunker loop -/

/-- A text (length 203) whose only sentence boundary `". "` sits at offset 1,
right at the low edge of the 100-character scan window of the first cut. -/
def c1text : List Char := 'a' :: '.' :: ' ' :: List.replicate 200 'b'

/-- With `chunk_size = 101`, `chunk_overlap = 3` on `c1text`, one loop
iteration moves `end` back to 3 and `start` back to `3 - 3 = 0`: the loop
state repeats (modulo the growing chunk list). -/
theorem c1text_loop_stuck (fuel : Nat) (acc : List (List Char)) :
    chunkTextAux 101 3 c1text (fuel + 1) 0 acc =
      chunkTextAux 101 3 c1text fuel 0 (acc ++ [['a', '.']]) := rfl

theorem c1text_aux_none : ∀ (fuel : Nat) (acc : List (List Char)),
    chunkTextAux 101 3 c1text fuel 0 acc = none := by
  intro fuel
  induction fuel with
  | zero => intro acc; rfl
  | succ n ih => intro acc; rw [c1text_loop_stuck]; exact ih _

/-- A blank-free text of length 20, for the `overlap = chunk_size` case. -/
def c2text : List Char := List.replicate 20 'a'

theorem c2text_loop_stuck (fuel : Nat) (acc : List (List Char)) :
    chunkTextAux 10 10 c2text (fuel + 1) 0 acc =
      chunkTextAux 10 10 c2text fuel 0 (acc ++ [List.replicate 10 'a']) := rfl

theorem c2text_aux_none : ∀ (fuel : Nat) (acc : List (List Char)),
    chunkTextAux 10 10 c2text fuel 0 acc = none := by
  intro fuel
  induction fuel with
  | zero => intro acc; rfl
  | succ n ih => intro acc; rw [c2text_loop_stuck]; exact ih _

/-- C1: the claim asserts that for every `chunkSize > 0` and every
`0 ≤ overlap < chunkSize` the loop's start offsets strictly increase and
`chunk_text` terminates.  The code violates this: with the valid
configuration `chunk_size = 101`, `overlap = 3` and `c1text`, the first
iteration's sentence-boundary adjustment moves `end` back to offset 3, the
next start is again `3 - 3 = 0` (not `> 0`), and the loop never ends
(`chunk_text` returns `none` for every amount of fuel). -/
theorem c1_start_offsets_not_increasing_loop_diverges :
    chunkEnd 101 c1text 0 - 3 = 0 ∧
    ∀ fuel : Nat, chunk_text 101 3 c1text fuel = none :=
  ⟨rfl, fun fuel => c1text_aux_none fuel []⟩

/-- C2: the claim (and the spec) require that `overlap >= chunkSize` raise a
fatal configuration error immediately.  The code performs no such check
(`DocumentService.__init__` merely reads the two env vars) and instead the
loop runs forever: with `chunk_size = overlap = 10` on a 20-character text,
`start` stays at `10 - 10 = 0` and `chunk_text` returns `none` for every
amount of fuel — it diverges rather than failing. -/
theorem c2_overlap_ge_chunk_size_diverges_instead_of_error :
    chunkEnd 10 c2text 0 - 10 = 0 ∧
    ∀ fuel : Nat, chunk_text 10 10 c2text fuel = none :=
  ⟨rfl, fun fuel => c2text_aux_none fuel []⟩

/-! ### C3: texts shorter than the chunk size -/

/-- Nine characters, shorter than a chunk size of 10. -/
def c3text : List Char := List.replicate 9 'a'

/-- C3 counterexample: the claim promises exactly one chunk (the trimmed
input) for every text shorter than `chunkSize` and every valid overlap.
With `chunk_size = 10`, `overlap = 8` the 9-character text `c3text` yields
five chunks (after the first cut, `start = 10 - 8 = 2 < 9`, so the loop
keeps going), and a whitespace-only short text yields zero chunks. -/
theorem c3_short_text_counterexample :
    chunk_text 10 8 c3text 20 ≠ some [pyStrip c3text] ∧
    chunk_text 10 8 c3text 20 =
      some [List.replicate 9 'a', List.replicate 7 'a', List.replicate 5 'a',
            List.replicate 3 'a', ['a']] ∧
    chunk_text 10 8 [' '] 20 ≠ some [pyStrip [' ']] ∧
    chunk_text 10 8 [' '] 20 = some [] := by decide

/-- C3 amended: if additionally the trimmed text is non-empty and
`length(text) + overlap ≤ chunkSize` (so the single post-cut start
`chunkSize - overlap` already reaches past the text), `chunk_text`
returns exactly one chunk, the whole input trimmed. -/
theorem c3_short_text_single_chunk
    (text : List Char) (chunk_size chunk_overlap fuel : Nat)
    (hne : pyStrip text ≠ [])
    (hov : chunk_overlap < chunk_size)
    (hlt : text.length < chunk_size)
    (hsum : text.length + chunk_overlap ≤ chunk_size)
    (hfuel : 2 ≤ fuel) :
    chunk_text chunk_size chunk_overlap text fuel = some [pyStrip text] := by
  have h0 : text ≠ [] := by
    intro h
    rw [h] at hne
    exact hne rfl
  have hlen : 0 < text.length := List.length_pos.mpr h0
  obtain ⟨f, rfl⟩ : ∃ f, fuel = f + 2 := ⟨fuel - 2, by omega⟩
  have he : chunkEnd chunk_size text 0 = (chunk_size : Int) := by
    unfold chunkEnd
    rw [if_neg (by push_cast; omega)]
    push_cast
    omega
  show chunkTextAux chunk_size chunk_overlap text (f + 1 + 1) 0 [] = some [pyStrip text]
  rw [chunkTextAux_succ, if_pos (by exact_mod_cast hlen), he,
    pySlice_all text _ (by push_cast; omega), if_neg hne, List.nil_append,
    chunkTextAux_succ, if_neg (by push_cast; omega)]

/-- Concrete text for the C3 witness. -/
def c3wtext : List Char := ['h', 'e', 'l', 'l', 'o']

theorem c3_short_text_single_chunk_witness :
    pyStrip c3wtext ≠ [] ∧ chunk_text 1000 200 c3wtext 2 = some [pyStrip c3wtext] :=
  ⟨by decide,
   c3_short_text_single_chunk c3wtext 1000 200 2 (by decide) (by decide) (by decide)
     (by decide) (by decide)⟩

/-! ### Bounds on the boundary scan and the emitted chunks -/

theorem foldl_invariant {α β : Type _} (step : β → α → β) (P : β → Prop) (Q : α → Prop)
    (hstep : ∀ b a, P b → Q a → P (step b a)) :
    ∀ l : List α, (∀ a ∈ l, Q a) → ∀ b, P b → P (l.foldl step b) := by
  intro l
  induction l with
  | nil => intro _ b hb; simpa using hb
  | cons x xs ih =>
      intro hQ b hb
      simp only [List.foldl_cons]
      exact ih (fun a ha => hQ a (List.mem_cons_of_mem _ ha)) _
        (hstep b x hb (hQ x (List.mem_cons_self _ _)))

theorem sentence_endings_length : ∀ p ∈ sentence_endings, p.length = 2 := by decide

/-- The boundary scan can move the cut at most one character past `e`
(a two-character delimiter starting at the last scanned index `e - 1`). -/
theorem bestBreak_le (text : List Char) (e : Nat) : bestBreak text e ≤ e + 1 := by
  unfold bestBreak
  refine foldl_invariant _ (fun b => b ≤ e + 1) (fun i => i < e) ?_ _ ?_ e (by omega)
  · intro b i hb hi
    refine foldl_invariant _ (fun b' => b' ≤ e + 1) (fun p => p.length = 2) ?_
      sentence_endings sentence_endings_length b hb
    intro b' p hb' hp
    dsimp only
    split
    · omega
    · exact hb'
  · intro i hi
    have h := List.mem_range'_1.mp hi
    omega

theorem chunkEnd_le (chunk_size : Nat) (text : List Char) (start : Int) :
    chunkEnd chunk_size text start ≤ start + chunk_size + 1 := by
  simp only [chunkEnd]
  split_ifs with h1 h2
  · have := bestBreak_le text (start + (chunk_size : Int)).toNat
    omega
  · omega
  · omega

theorem chunkEnd_nonneg (chunk_size : Nat) (text : List Char) (start : Int)
    (h : 0 ≤ start) : 0 ≤ chunkEnd chunk_size text start := by
  simp only [chunkEnd]
  split_ifs with h1 h2
  · exact Int.natCast_nonneg _
  · omega
  · omega

theorem chunkEnd_of_neg (chunk_size : Nat) (text : List Char) (start : Int)
    (h : chunkEnd chunk_size text start < 0) :
    chunkEnd chunk_size text start = start + chunk_size := by
  simp only [chunkEnd] at h ⊢
  split_ifs at h ⊢ with h1 h2
  · exact absurd h (by simp)
  · rfl
  · rfl

theorem length_pySlice (text : List Char) (a b : Int) :
    (pySlice text a b).length =
      min (pyIdx text.length b) text.length - pyIdx text.length a := by
  unfold pySlice
  rw [List.length_drop, List.length_take]

theorem pyStrip_length_le (l : List Char) : (pyStrip l).length ≤ l.length := by
  unfold pyStrip
  calc ((l.dropWhile pyIsSpace).reverse.dropWhile pyIsSpace).reverse.length
      = ((l.dropWhile pyIsSpace).reverse.dropWhile pyIsSpace).length := List.length_reverse _
    _ ≤ (l.dropWhile pyIsSpace).reverse.length := (List.dropWhile_sublist _).length_le
    _ = (l.dropWhile pyIsSpace).length := List.length_reverse _
    _ ≤ l.length := (List.dropWhile_sublist _).length_le

/-- The untrimmed span of any candidate chunk `text[start:end]` holds at most
`chunk_size + 1` characters, in every regime of `start` (including the
negative starts reachable in the buggy configurations). -/
theorem chunk_span_le (chunk_size : Nat) (text : List Char) (start : Int) :
    (pySlice text start (chunkEnd chunk_size text start)).length ≤ chunk_size + 1 := by
  have h1 := chunkEnd_le chunk_size text start
  rw [length_pySlice]
  rcases lt_or_le start 0 with hs | hs
  · rcases lt_or_le (chunkEnd chunk_size text start) 0 with hene | he0
    · have h3 := chunkEnd_of_neg chunk_size text start hene
      simp only [pyIdx]
      split_ifs <;> omega
    · simp only [pyIdx]
      split_ifs <;> omega
  · have h2 := chunkEnd_nonneg chunk_size text start hs
    simp only [pyIdx]
    split_ifs <;> omega

theorem chunkTextAux_bounds (chunk_size chunk_overlap : Nat) (text : List Char) :
    ∀ (fuel : Nat) (start : Int) (acc r : List (List Char)),
      (∀ c ∈ acc, c ≠ [] ∧ c.length ≤ chunk_size + 1) →
      chunkTextAux chunk_size chunk_overlap text fuel start acc = some r →
      ∀ c ∈ r, c ≠ [] ∧ c.length ≤ chunk_size + 1 := by
  intro fuel
  induction fuel with
  | zero => intro start acc r hacc h; cases h
  | succ n ih =>
      intro start acc r hacc h
      rw [chunkTextAux_succ] at h
      split_ifs at h with hlt hc
      · exact ih _ _ r hacc h
      · refine ih _ _ r ?_ h
        intro c hcmem
        rcases List.mem_append.mp hcmem with hmem | hmem
        · exact hacc c hmem
        · rcases List.mem_singleton.mp hmem with rfl
          exact ⟨hc, le_trans (pyStrip_length_le _) (chunk_span_le _ _ _)⟩
      · obtain rfl := Option.some.inj h
        exact hacc

/-- C10: for every input and every `chunkSize > 0`, the sentence-boundary
adjustment can move the cut at most one character past `start + chunkSize`,
and every chunk emitted by a completed run of `chunk_text` is non-empty
(after trimming) and spans at most `chunkSize + 1` characters. -/
theorem c10_emitted_chunks_bounded (chunk_size chunk_overlap : Nat) (text : List Char)
    (fuel : Nat) (r : List (List Char)) (hcs : 0 < chunk_size)
    (h : chunk_text chunk_size chunk_overlap text fuel = some r) :
    (∀ start : Int, chunkEnd chunk_size text start ≤ start + chunk_size + 1) ∧
    ∀ c ∈ r, c ≠ [] ∧ c.length ≤ chunk_size + 1 :=
  ⟨fun start => chunkEnd_le chunk_size text start,
   chunkTextAux_bounds chunk_size chunk_overlap text fuel 0 [] r (by simp) h⟩

/-! ### C7: the cut lands just after the rightmost delimiter in the window -/

/-- Some sentence-ending delimiter starts at offset `i`. -/
def anyMatchAt (text : List Char) (i : Nat) : Bool :=
  sentence_endings.any (fun p => matchesAt text i p)

/-- Processing index `i` when a delimiter starts there always (re)sets the
accumulator to `i + 2`, whatever its previous value (every delimiter is two
characters long). -/
theorem scan_step_of_match (text : List Char) (i : Nat) (b : Nat)
    (h : anyMatchAt text i = true) :
    sentence_endings.foldl
      (fun b' ending => if matchesAt text i ending then i + ending.length else b') b
      = i + 2 := by
  simp only [anyMatchAt, sentence_endings, List.any_cons, List.any_nil, Bool.or_false,
    Bool.or_eq_true] at h
  simp only [sentence_endings, List.foldl_cons, List.foldl_nil]
  cases h1 : matchesAt text i ['.', ' '] <;>
    cases h2 : matchesAt text i ['!', ' '] <;>
      cases h3 : matchesAt text i ['?', ' '] <;>
        cases h4 : matchesAt text i ['\n', '\n'] <;>
          simp [h1, h2, h3, h4] <;> simp [h1, h2, h3, h4] at h

/-- Processing index `j` when no delimiter starts there leaves the
accumulator unchanged. -/
theorem scan_step_of_no_match (text : List Char) (j : Nat) (b : Nat)
    (h : anyMatchAt text j = false) :
    sentence_endings.foldl
      (fun b' ending => if matchesAt text j ending then j + ending.length else b') b
      = b := by
  simp only [sentence_endings, List.foldl_cons, List.foldl_nil]
  cases h1 : matchesAt text j ['.', ' '] <;>
    cases h2 : matchesAt text j ['!', ' '] <;>
      cases h3 : matchesAt text j ['?', ' '] <;>
        cases h4 : matchesAt text j ['\n', '\n'] <;>
          simp [h1, h2, h3, h4] <;>
            simp [anyMatchAt, sentence_endings, h1, h2, h3, h4] at h

/-- Core of the rightmost-wins argument: scanning `range' lo n` that
contains a matching index `i` after which no index matches ends at `i+2`,
whatever the accumulator held before. -/
theorem scan_range_rightmost (text : List Char) (i : Nat)
    (hmatch : anyMatchAt text i = true) :
    ∀ (n lo b : Nat), lo ≤ i → i < lo + n →
      (∀ j : Nat, i < j → j < lo + n → anyMatchAt text j = false) →
      (List.range' lo n).foldl
        (fun best k =>
          sentence_endings.foldl
            (fun b' ending => if matchesAt text k ending then k + ending.length else b')
            best) b = i + 2 := by
  intro n
  induction n with
  | zero => intro lo b h1 h2 _; omega
  | succ m ih =>
      intro lo b h1 h2 hnone
      rw [List.range'_succ, List.foldl_cons]
      rcases eq_or_lt_of_le h1 with rfl | hlt
      · rw [scan_step_of_match text lo b hmatch]
        refine foldl_invariant _ (fun b' => b' = lo + 2) (fun j => anyMatchAt text j = false)
          ?_ _ ?_ _ rfl
        · intro b' j hb' hj
          rw [hb'] at *
          exact scan_step_of_no_match text j _ hj
        · intro j hj
          have hm := List.mem_range'_1.mp hj
          exact hnone j (by omega) (by omega)
      · exact ih (lo + 1) _ (by omega) (by omega) (fun j ha hb => hnone j ha (by omega))

/-- The scan window characterization: if a delimiter starts at `i` inside
the 100-character window before `e` and no delimiter starts at any later
offset of the window, the cut moves to `i + 2`, just past that delimiter. -/
theorem bestBreak_rightmost (text : List Char) (e i : Nat)
    (hlo : e - 100 ≤ i) (hhi : i < e)
    (hmatch : anyMatchAt text i = true)
    (hnone : (List.range' (i + 1) (e - (i + 1))).all (fun j => !anyMatchAt text j) = true) :
    bestBreak text e = i + 2 := by
  unfold bestBreak
  refine scan_range_rightmost text i hmatch _ _ _ hlo (by omega) ?_
  intro j h1 h2
  have h3 : j ∈ List.range' (i + 1) (e - (i + 1)) := List.mem_range'_1.mpr (by omega)
  simpa using List.all_eq_true.mp hnone j h3

/-- The C7 scenario text: the only sentence boundary `". "` starts at
offset 995, inside the scan window `[900, 1000)` of the first cut. -/
def c7text : List Char := List.replicate 995 'a' ++ '.' :: ' ' :: List.replicate 500 'b'

/-- First chunk of the C7 scenario: `text[0:997]` trimmed (the trailing
space of the delimiter is stripped). -/
def c7chunk1 : List Char := List.replicate 995 'a' ++ ['.']

/-- Second chunk of the C7 scenario: `text[797:1797]` (clamped to the end). -/
def c7chunk2 : List Char := List.replicate 198 'a' ++ '.' :: ' ' :: List.replicate 500 'b'

set_option maxRecDepth 100000 in
theorem c7text_length : c7text.length = 1497 := by
  simp [c7text]

set_option maxRecDepth 100000 in
/-- C7: when one or more delimiters occur in the 100-character window
before the fixed cut, the cut moves to just after the rightmost such
delimiter (`bestBreak_rightmost` component), and concretely, with
`chunkSize = 1000`, `overlap = 200` and the `". "` at offset 995 of
`c7text`, the first cut lands at 997 — not at the raw offset 1000 — so the
first emitted chunk is `text[0:997]` trimmed. -/
theorem c7_boundary_aligned_cut :
    (∀ (text : List Char) (e i : Nat),
        e - 100 ≤ i → i < e → anyMatchAt text i = true →
        (List.range' (i + 1) (e - (i + 1))).all (fun j => !anyMatchAt text j) = true →
        bestBreak text e = i + 2) ∧
    bestBreak c7text 1000 = 997 ∧
    chunk_text 1000 200 c7text 3 = some [c7chunk1, c7chunk2] := by
  have hbb : bestBreak c7text 1000 = 997 :=
    bestBreak_rightmost c7text 1000 995 (by omega) (by omega) (by decide) (by decide)
  refine ⟨bestBreak_rightmost, hbb, ?_⟩
  have hce1 : chunkEnd 1000 c7text 0 = (997 : Int) := by
    simp only [chunkEnd]
    rw [if_pos (by rw [c7text_length]; norm_num), if_pos (by norm_num)]
    norm_num
    rw [show Int.toNat 1000 = 1000 from rfl, hbb]
    norm_num
  have hc1 : pyStrip (pySlice c7text 0 997) = c7chunk1 := by decide
  have hce2 : chunkEnd 1000 c7text 797 = (1797 : Int) := by
    simp only [chunkEnd]
    rw [if_neg (by rw [c7text_length]; norm_num)]
    norm_num
  have hc2 : pyStrip (pySlice c7text 797 1797) = c7chunk2 := by decide
  show chunkTextAux 1000 200 c7text 3 0 [] = some [c7chunk1, c7chunk2]
  rw [chunkTextAux_succ, if_pos (by rw [c7text_length]; norm_num), hce1]
  norm_num [hc1]
  rw [if_neg (show ¬(c7chunk1 = []) from by decide)]
  rw [chunkTextAux_succ, if_pos (by rw [c7text_length]; norm_num), hce2]
  norm_num [hc2]
  rw [if_neg (show ¬(c7chunk2 = []) from by decide)]
  rw [chunkTextAux_succ, if_neg (by rw [c7text_length]; norm_num)]

theorem c7_boundary_aligned_cut_witness :
    anyMatchAt c7text 995 = true ∧ bestBreak c7text 1000 = 995 + 2 :=
  ⟨by decide,
   c7_boundary_aligned_cut.1 c7text 1000 995 (by omega) (by omega) (by decide) (by decide)⟩

/-- Concrete text for the C10 witness. -/
def c10wtext : List Char := List.replicate 8 'a'

theorem c10_emitted_chunks_bounded_witness :
    chunkEnd 5 c10wtext 0 ≤ 0 + 5 + 1 ∧
    (List.replicate 5 'a' ≠ [] ∧ (List.replicate 5 'a').length ≤ 5 + 1) :=
  ⟨(c10_emitted_chunks_bounded 5 1 c10wtext 10
      [List.replicate 5 'a', List.replicate 4 'a'] (by decide) (by decide)).1 0,
   (c10_emitted_chunks_bounded 5 1 c10wtext 10
      [List.replicate 5 'a', List.replicate 4 'a'] (by decide) (by decide)).2
     (List.replicate 5 'a') (by decide)⟩

/-! ### Python dictionaries

Payload values are strings or numbers; a metadata dictionary is an
insertion-ordered association list, mutated only through `dictSet`
(update-in-place of the first occurrence, append when absent), exactly the
CPython dict behaviour reachable here. -/

inductive Val where
  | vstr : String → Val
  | vnat : Nat → Val
deriving DecidableEq, Repr

abbrev Dict := List (String × Val)

/-- `d[k]` (first occurrence; dictionaries built by `dictSet` have no
duplicate keys). -/
def dictGet : Dict → String → Option Val
  | [], _ => none
  | (k', v) :: rest, k => if k' = k then some v else dictGet rest k

/-- `d[k] = v`: update in place, or append when the key is absent. -/
def dictSet : Dict → String → Val → Dict
  | [], k, v => [(k, v)]
  | (k', v') :: rest, k, v =>
      if k' = k then (k, v) :: rest else (k', v') :: dictSet rest k v

/-- `{**a, **b}`. -/
def dictMerge (a b : Dict) : Dict :=
  b.foldl (fun d kv => dictSet d kv.1 kv.2) a

/-- Removal of every binding of a key (used to compare snapshots up to a
single field). -/
def dictErase (d : Dict) (k : String) : Dict :=
  d.filter (fun kv => ¬ kv.1 = k)

/-- `d.get(k, 0)` for a numeric field. -/
def dictGetNat (d : Dict) (k : String) : Nat :=
  match dictGet d k with
  | some (.vnat n) => n
  | _ => 0

/-! ### Points and the vector store

Modelled from the spec: the `VectorStore` capability (spec §4.3) is the
external Qdrant collection, not code under src/.  A stored point is
`{id, vector, payload}` (spec §3); `scroll` returns one page of at most
`limit` points matching the optional exact-match `source` filter, together
with their stored vectors and payloads; `upsert` inserts or overwrites by
id; `delete` removes points by id.  Timestamps (`datetime.now()`) are
modelled by a logical clock: each call returns the current tick and
advances it, and `uuid.uuid4()` is a fresh-id counter. -/

abbrev Vec := List Int

structure Payload where
  text : List Char
  source : String
  chunk_index : Nat
  total_chunks : Nat
  document_metadata : Dict
  chunk_length : Nat
  created_at : Nat
deriving DecidableEq, Repr

structure Point where
  id : Nat
  vector : Vec
  payload : Payload
deriving DecidableEq, Repr

structure SysState where
  store : List Point
  clock : Nat
  nextId : Nat
deriving DecidableEq, Repr

/-- One `scroll` page: filter (exact match on `payload.source`), then at
most `limit` points. -/
def scroll (store : List Point) (source_filter : Option String) (limit : Nat) :
    List Point :=
  (match source_filter with
   | none => store
   | some name => store.filter (fun p => p.payload.source = name)).take limit

/-- Insert-or-overwrite of one point by id. -/
def upsertOne (store : List Point) (p : Point) : List Point :=
  if store.any (fun q => q.id = p.id) then
    store.map (fun q => if q.id = p.id then p else q)
  else store ++ [p]

/-- `upsert(points)`: one batch, point by point. -/
def upsert (store : List Point) (points : List Point) : List Point :=
  points.foldl upsertOne store

/-! ### DocumentService operations (document_service.py) -/

/-- `get_embeddings` (lines 88-106): strip and drop blank texts, fail when
nothing remains, otherwise call the provider `E` on the filtered batch. -/
def get_embeddings (E : List (List Char) → List Vec) (texts : List (List Char)) :
    Except String (List Vec) :=
  let valid_texts := (texts.map pyStrip).filter (fun t => t ≠ [])
  if valid_texts = [] then
    .error "No valid text chunks provided for embedding generation"
  else .ok (E valid_texts)

/-- The `document_metadata` dict of lines 150-158: six fixed fields merged
with the caller-supplied `metadata`. -/
def mkDocumentMetadata (filename : String)
    (file_size page_count total_chunks processed_at text_length : Nat)
    (metadata : Dict) : Dict :=
  dictMerge
    [("filename", .vstr filename), ("file_size", .vnat file_size),
     ("page_count", .vnat page_count), ("total_chunks", .vnat total_chunks),
     ("processed_at", .vnat processed_at), ("text_length", .vnat text_length)]
    metadata

/-- The point batch of lines 160-177: one point per (chunk, embedding)
pair, fresh ids `baseId + i`, one `created_at` tick per point, and the
same `document_metadata` stamped into every payload. -/
def mkPoints (valid_chunks : List (List Char)) (embeddings : List Vec)
    (filename : String) (document_metadata : Dict) (baseId baseClock : Nat) :
    List Point :=
  (valid_chunks.zip embeddings).enum.map (fun ie =>
    { id := baseId + ie.1
      vector := ie.2.2
      payload :=
        { text := ie.2.1
          source := filename
          chunk_index := ie.1
          total_chunks := valid_chunks.length
          document_metadata := document_metadata
          chunk_length := ie.2.1.length
          created_at := baseClock + ie.1 } })

structure IngestReceipt where
  chunks : Nat
  filename : String
  file_size : Nat
  page_count : Nat
  text_length : Nat
  processed_at : Nat
deriving DecidableEq, Repr

/-- `process_pdf` (lines 108-199), starting after the external byte-level
steps (text extraction, `os.stat`, page counting), which hand over `text`,
`file_size` and `page_count`.  Every failure leaves the state untouched;
the single `upsert` of the whole batch is the last step.  The `none`
result of `chunk_text` (the loop still running) is mapped to an error so
the embedding stays total. -/
def process_pdf (E : List (List Char) → List Vec) (chunk_size chunk_overlap fuel : Nat)
    (st : SysState) (text : List Char) (file_size page_count : Nat)
    (filename : String) (metadata : Dict) : SysState × Except String IngestReceipt :=
  if pyStrip text = [] then (st, .error "No text could be extracted from the PDF")
  else
    match chunk_text chunk_size chunk_overlap text fuel with
    | none => (st, .error "chunk_text did not terminate")
    | some chunks =>
      if chunks = [] then
        (st, .error "No valid text chunks could be created from the PDF")
      else
        let valid_chunks := chunks.filter (fun c => pyStrip c ≠ [])
        if valid_chunks = [] then (st, .error "No valid text chunks after filtering")
        else
          match get_embeddings E valid_chunks with
          | .error e => (st, .error e)
          | .ok embeddings =>
            if valid_chunks.length ≠ embeddings.length then
              (st, .error "Mismatch between chunks and embeddings")
            else
              let processed_at := st.clock
              let document_metadata :=
                mkDocumentMetadata filename file_size page_count valid_chunks.length
                  processed_at text.length metadata
              let points :=
                mkPoints valid_chunks embeddings filename document_metadata
                  st.nextId (st.clock + 1)
              ({ store := upsert st.store points
                 clock := st.clock + 1 + points.length
                 nextId := st.nextId + points.length },
               .ok { chunks := valid_chunks.length, filename := filename,
                     file_size := file_size, page_count := page_count,
                     text_length := text.length, processed_at := processed_at })

structure UpdateReceipt where
  document_name : String
  updated_chunks : Nat
  updated_metadata : Dict
  updated_at : Nat
deriving DecidableEq, Repr

/-- `update_document_metadata` (lines 335-389): scroll one page filtered by
source, fail when empty, otherwise rewrite every returned point with
`{**current, **patch, "updated_at": now()}` merged into its metadata (one
`now()` call per point, inside the loop), keeping id and stored vector,
then upsert the batch; the receipt stamps one more `now()`. -/
def update_document_metadata (st : SysState) (document_name : String)
    (metadata : Dict) : SysState × Except String UpdateReceipt :=
  let page := scroll st.store (some document_name) 1000
  if page = [] then (st, .error ("Document " ++ document_name ++ " not found"))
  else
    let points_to_update := page.enum.map (fun jp =>
      let current_doc_metadata := jp.2.payload.document_metadata
      let updated_doc_metadata :=
        dictSet (dictMerge current_doc_metadata metadata) "updated_at"
          (.vnat (st.clock + jp.1))
      { jp.2 with
        payload := { jp.2.payload with document_metadata := updated_doc_metadata } })
    ({ store := upsert st.store points_to_update
       clock := st.clock + points_to_update.length + 1
       nextId := st.nextId },
     .ok { document_name := document_name
           updated_chunks := points_to_update.length
           updated_metadata := metadata
           updated_at := st.clock + points_to_update.length })

structure DeleteReceipt where
  document_name : String
  deleted_chunks : Nat
  deleted_at : Nat
  document_metadata : Dict
deriving DecidableEq, Repr

/-- `delete_document` (lines 391-435): scroll one page filtered by source,
fail when no ids match, capture the first point's metadata snapshot, then
delete the collected ids. -/
def delete_document (st : SysState) (document_name : String) :
    SysState × Except String DeleteReceipt :=
  let page := scroll st.store (some document_name) 1000
  let point_ids := page.map (fun p => p.id)
  match page with
  | [] => (st, .error ("Document " ++ document_name ++ " not found"))
  | p0 :: _ =>
      ({ store := st.store.filter (fun p => ¬ point_ids.contains p.id)
         clock := st.clock + 1
         nextId := st.nextId },
       .ok { document_name := document_name
             deleted_chunks := point_ids.length
             deleted_at := st.clock
             document_metadata := p0.payload.document_metadata })

structure Stats where
  total_documents : Nat
  total_chunks : Nat
  total_file_size : Nat
  total_text_length : Nat
  average_chunk_size : ℚ
  generated_at : Nat

/-- `get_document_statistics` (lines 437-467): one unfiltered scroll page;
distinct sources, point count, per-point sums and the guarded average
(Python true division, modelled in `ℚ`). -/
def get_document_statistics (st : SysState) : Stats :=
  let page := scroll st.store none 1000
  let total_chunks := page.length
  let total_documents := ((page.map (fun p => p.payload.source)).dedup).length
  let total_size :=
    (page.map (fun p => dictGetNat p.payload.document_metadata "file_size")).sum
  let total_text_length : Nat := (page.map (fun p => p.payload.chunk_length)).sum
  let avg_chunk_size : ℚ :=
    if 0 < total_chunks then (total_text_length : ℚ) / (total_chunks : ℚ) else 0
  { total_documents := total_documents
    total_chunks := total_chunks
    total_file_size := total_size
    total_text_length := total_text_length
    average_chunk_size := avg_chunk_size
    generated_at := st.clock }

instance exceptDecEq {ε α : Type _} [DecidableEq ε] [DecidableEq α] :
    DecidableEq (Except ε α) := fun a b =>
  match a, b with
  | .error e, .error f =>
      if h : e = f then isTrue (by rw [h]) else isFalse (by intro hh; cases hh; exact h rfl)
  | .ok x, .ok y =>
      if h : x = y then isTrue (by rw [h]) else isFalse (by intro hh; cases hh; exact h rfl)
  | .error _, .ok _ => isFalse (by intro hh; cases hh)
  | .ok _, .error _ => isFalse (by intro hh; cases hh)

/-- The empty deployment: fresh collection, clock and id counter at 0. -/
def initState : SysState := { store := [], clock := 0, nextId := 0 }

/-- A provider returning one fixed vector per input (used in witnesses). -/
def unitProvider : List (List Char) → List Vec := fun l => l.map (fun _ => [1])

example :
    (process_pdf unitProvider 5 1 10 initState
      ['a', 'a', 'a', 'a', 'a', 'a', 'a', 'a'] 3 1 "d" []).2 =
    .ok { chunks := 2, filename := "d", file_size := 3, page_count := 1,
          text_length := 8, processed_at := 0 } := by decide

/-! ### C6: cardinality check and all-or-nothing ingestion -/

theorem mkPoints_length (valid_chunks : List (List Char)) (embeddings : List Vec)
    (filename : String) (dm : Dict) (baseId baseClock : Nat) :
    (mkPoints valid_chunks embeddings filename dm baseId baseClock).length =
      min valid_chunks.length embeddings.length := by
  simp [mkPoints]

/-- C6: (i) whenever `process_pdf` fails — blank text, non-terminating or
empty chunking, empty embedding input, or embedding-count mismatch — the
whole state is returned unchanged: no write has happened; (ii) a provider
returning a number of vectors different from the number of valid chunks
always makes the call fail; (iii) a successful call writes the whole batch
(as many points as the receipt's chunk count) in one `upsert`. -/
theorem c6_ingest_mismatch_fails_and_atomic
    (E : List (List Char) → List Vec) (chunk_size chunk_overlap fuel : Nat)
    (st : SysState) (text : List Char) (file_size page_count : Nat)
    (filename : String) (metadata : Dict) :
    (∀ e, (process_pdf E chunk_size chunk_overlap fuel st text file_size page_count
        filename metadata).2 = .error e →
      (process_pdf E chunk_size chunk_overlap fuel st text file_size page_count
        filename metadata).1 = st) ∧
    (∀ cks, chunk_text chunk_size chunk_overlap text fuel = some cks →
      (E (((cks.filter (fun c => pyStrip c ≠ [])).map pyStrip).filter
            (fun t => t ≠ []))).length ≠
        (cks.filter (fun c => pyStrip c ≠ [])).length →
      ∃ e, (process_pdf E chunk_size chunk_overlap fuel st text file_size page_count
        filename metadata).2 = .error e) ∧
    (∀ r, (process_pdf E chunk_size chunk_overlap fuel st text file_size page_count
        filename metadata).2 = .ok r →
      ∃ pts, (process_pdf E chunk_size chunk_overlap fuel st text file_size page_count
          filename metadata).1.store = upsert st.store pts ∧ pts.length = r.chunks) := by
  by_cases h1 : pyStrip text = []
  · refine ⟨fun e he => ?_, fun cks hck hmm => ?_, fun r hr => ?_⟩
    · simp only [process_pdf]; rw [if_pos h1]
    · exact ⟨"No text could be extracted from the PDF",
        by simp only [process_pdf]; rw [if_pos h1]⟩
    · simp only [process_pdf] at hr; rw [if_pos h1] at hr; cases hr
  · cases h2 : chunk_text chunk_size chunk_overlap text fuel with
    | none =>
        refine ⟨fun e he => ?_, fun cks hck hmm => ?_, fun r hr => ?_⟩
        · simp only [process_pdf, h2]; rw [if_neg h1]
        · exact ⟨"chunk_text did not terminate",
            by simp only [process_pdf, h2]; rw [if_neg h1]⟩
        · simp only [process_pdf, h2] at hr; rw [if_neg h1] at hr; cases hr
    | some cks =>
        by_cases h3 : cks = []
        · refine ⟨fun e he => ?_, fun cks' hck hmm => ?_, fun r hr => ?_⟩
          · simp only [process_pdf, h2]; rw [if_neg h1, if_pos h3]
          · exact ⟨"No valid text chunks could be created from the PDF",
              by simp only [process_pdf, h2]; rw [if_neg h1, if_pos h3]⟩
          · simp only [process_pdf, h2] at hr; rw [if_neg h1, if_pos h3] at hr; cases hr
        · by_cases h4 : cks.filter (fun c => pyStrip c ≠ []) = []
          · refine ⟨fun e he => ?_, fun cks' hck hmm => ?_, fun r hr => ?_⟩
            · simp only [process_pdf, h2]; rw [if_neg h1, if_neg h3, if_pos h4]
            · exact ⟨"No valid text chunks after filtering",
                by simp only [process_pdf, h2]; rw [if_neg h1, if_neg h3, if_pos h4]⟩
            · simp only [process_pdf, h2] at hr
              rw [if_neg h1, if_neg h3, if_pos h4] at hr
              cases hr
          · cases h5 : get_embeddings E (cks.filter (fun c => pyStrip c ≠ [])) with
            | error e' =>
                refine ⟨fun e he => ?_, fun cks' hck hmm => ?_, fun r hr => ?_⟩
                · simp only [process_pdf, h2, h5]; rw [if_neg h1, if_neg h3, if_neg h4]
                · exact ⟨e', by
                    simp only [process_pdf, h2, h5]
                    rw [if_neg h1, if_neg h3, if_neg h4]⟩
                · simp only [process_pdf, h2, h5] at hr
                  rw [if_neg h1, if_neg h3, if_neg h4] at hr
                  cases hr
            | ok embeddings =>
                have hemb : embeddings =
                    E (((cks.filter (fun c => pyStrip c ≠ [])).map pyStrip).filter
                        (fun t => t ≠ [])) := by
                  simp only [get_embeddings] at h5
                  split_ifs at h5 with hv
                  exact (Except.ok.inj h5).symm
                by_cases h6 : (cks.filter (fun c => pyStrip c ≠ [])).length ≠ embeddings.length
                · refine ⟨fun e he => ?_, fun cks' hck hmm => ?_, fun r hr => ?_⟩
                  · simp only [process_pdf, h2, h5]
                    rw [if_neg h1, if_neg h3, if_neg h4, if_pos h6]
                  · exact ⟨"Mismatch between chunks and embeddings", by
                      simp only [process_pdf, h2, h5]
                      rw [if_neg h1, if_neg h3, if_neg h4, if_pos h6]⟩
                  · simp only [process_pdf, h2, h5] at hr
                    rw [if_neg h1, if_neg h3, if_neg h4, if_pos h6] at hr
                    cases hr
                · push_neg at h6
                  refine ⟨fun e he => ?_, fun cks' hck hmm => ?_, fun r hr => ?_⟩
                  · simp only [process_pdf, h2, h5] at he
                    rw [if_neg h1, if_neg h3, if_neg h4, if_neg (not_not_intro h6)] at he
                    cases he
                  · obtain rfl := Option.some.inj hck
                    rw [← hemb] at hmm
                    omega
                  · refine ⟨mkPoints (cks.filter (fun c => pyStrip c ≠ [])) embeddings
                      filename
                      (mkDocumentMetadata filename file_size page_count
                        (cks.filter (fun c => pyStrip c ≠ [])).length st.clock
                        text.length metadata) st.nextId (st.clock + 1), ?_, ?_⟩
                    · simp only [process_pdf, h2, h5]
                      rw [if_neg h1, if_neg h3, if_neg h4, if_neg (not_not_intro h6)]
                    · simp only [process_pdf, h2, h5] at hr
                      rw [if_neg h1, if_neg h3, if_neg h4, if_neg (not_not_intro h6)] at hr
                      obtain rfl := (Except.ok.inj hr).symm
                      rw [mkPoints_length, h6, min_self]

/-- A provider that always returns no vectors (violating cardinality). -/
def emptyProvider : List (List Char) → List Vec := fun _ => []

theorem c6_ingest_mismatch_fails_and_atomic_witness :
    (process_pdf emptyProvider 5 1 10 initState ['a', 'a', 'a'] 3 1 "d" []).2 =
      .error "Mismatch between chunks and embeddings" ∧
    (process_pdf emptyProvider 5 1 10 initState ['a', 'a', 'a'] 3 1 "d" []).1 =
      initState :=
  ⟨by decide,
   (c6_ingest_mismatch_fails_and_atomic emptyProvider 5 1 10 initState ['a', 'a', 'a']
      3 1 "d" []).1 "Mismatch between chunks and embeddings" (by decide)⟩

/-! ### Vector-store lemmas -/

theorem scroll_some_eq_filter (store : List Point) (name : String) (limit : Nat)
    (h : store.length ≤ limit) :
    scroll store (some name) limit = store.filter (fun p => p.payload.source = name) := by
  simp only [scroll]
  exact List.take_of_length_le (le_trans (List.length_filter_le _ _) h)

theorem scroll_none_eq (store : List Point) (limit : Nat) (h : store.length ≤ limit) :
    scroll store none limit = store := by
  simp only [scroll]
  exact List.take_of_length_le h

theorem point_eq_of_id_eq (store : List Point) (h : (store.map Point.id).Nodup)
    {p q : Point} (hp : p ∈ store) (hq : q ∈ store) (hid : p.id = q.id) : p = q :=
  List.inj_on_of_nodup_map h hp hq hid

/-- Upserting a batch of points whose ids are all fresh appends it. -/
theorem upsert_of_fresh (pts : List Point) :
    ∀ store : List Point,
      (∀ q ∈ pts, ∀ p ∈ store, p.id ≠ q.id) →
      (pts.map Point.id).Nodup →
      upsert store pts = store ++ pts := by
  induction pts with
  | nil => intro store _ _; simp [upsert]
  | cons q rest ih =>
      intro store hfresh hnodup
      have hq : upsertOne store q = store ++ [q] := by
        unfold upsertOne
        rw [if_neg]
        intro hcon
        obtain ⟨p, hp, hpq⟩ := List.any_eq_true.mp hcon
        exact hfresh q (List.mem_cons_self _ _) p hp (by simpa using hpq)
      show upsert (upsertOne store q) rest = store ++ q :: rest
      rw [hq, ih (store ++ [q]) ?_ (List.Nodup.of_cons hnodup), List.append_assoc]
      · rfl
      · intro x hx p hp
        rcases List.mem_append.mp hp with hp' | hp'
        · exact hfresh x (List.mem_cons_of_mem _ hx) p hp'
        · rw [List.mem_singleton.mp hp']
          intro hcon
          have hmem : q.id ∈ rest.map Point.id := List.mem_map.mpr ⟨x, hx, hcon.symm⟩
          simp only [List.map_cons, List.nodup_cons] at hnodup
          exact hnodup.1 hmem

/-- Upserting a batch whose ids already all occur in a duplicate-free store
rewrites exactly the points with those ids, in place. -/
theorem upsert_eq_map (pts : List Point) :
    ∀ store : List Point,
      (∀ q ∈ pts, ∃ p ∈ store, p.id = q.id) →
      (pts.map Point.id).Nodup →
      upsert store pts = store.map (fun p =>
        match pts.find? (fun q => q.id = p.id) with
        | some q => q
        | none => p) := by
  induction pts with
  | nil =>
      intro store _ _
      exact (List.map_id _).symm
  | cons q rest ih =>
      intro store hsub hnodup
      have hany : store.any (fun x => x.id = q.id) = true := by
        obtain ⟨p, hp, hpq⟩ := hsub q (List.mem_cons_self _ _)
        exact List.any_eq_true.mpr ⟨p, hp, by simp [hpq]⟩
      have hq : upsertOne store q = store.map (fun x => if x.id = q.id then q else x) := by
        unfold upsertOne
        rw [if_pos hany]
      have hqrest : q.id ∉ rest.map Point.id := by
        simp only [List.map_cons, List.nodup_cons] at hnodup
        exact hnodup.1
      have hids : (store.map (fun x => if x.id = q.id then q else x)).map Point.id =
          store.map Point.id := by
        rw [List.map_map]
        refine List.map_congr_left ?_
        intro p hp
        simp only [Function.comp_apply]
        split_ifs with h
        · rw [h]
        · rfl
      show upsert (upsertOne store q) rest = _
      rw [hq, ih (store.map (fun x => if x.id = q.id then q else x)) ?_
        (List.Nodup.of_cons hnodup)]
      · rw [List.map_map]
        refine List.map_congr_left ?_
        intro p hp
        simp only [Function.comp_apply]
        by_cases hpq : p.id = q.id
        · rw [if_pos hpq]
          have hpred : (fun (x : Point) => decide (x.id = p.id)) =
              (fun x => decide (x.id = q.id)) := by
            funext x
            rw [hpq]
          have hfind : rest.find? (fun x => x.id = q.id) = none :=
            List.find?_eq_none.mpr (fun x hx hcon =>
              hqrest (List.mem_map.mpr ⟨x, hx, by simpa using hcon⟩))
          rw [hpred, List.find?_cons]
          simp [hfind]
        · rw [if_neg hpq]
          rw [List.find?_cons]
          simp [show ¬(q.id = p.id) from fun h => hpq h.symm]
      · intro x hx
        obtain ⟨p, hp, hpid⟩ := hsub x (List.mem_cons_of_mem _ hx)
        by_cases h : p.id = q.id
        · refine ⟨q, List.mem_map.mpr ⟨p, hp, by rw [if_pos h]⟩, ?_⟩
          rw [← h]
          exact hpid
        · exact ⟨p, List.mem_map.mpr ⟨p, hp, by rw [if_neg h]⟩, hpid⟩

/-- A point whose id is not in the batch survives an upsert unchanged. -/
theorem mem_upsert_of_fresh_id (pts : List Point) :
    ∀ (store : List Point) (p : Point), p ∈ store → p.id ∉ pts.map Point.id →
      p ∈ upsert store pts := by
  induction pts with
  | nil => intro store p hp _; simpa [upsert] using hp
  | cons q rest ih =>
      intro store p hp hid
      have hpq : p.id ≠ q.id := by
        simp only [List.map_cons, List.mem_cons, not_or] at hid
        exact hid.1
      have h1 : p ∈ upsertOne store q := by
        unfold upsertOne
        split_ifs with h
        · exact List.mem_map.mpr ⟨p, hp, by rw [if_neg hpq]⟩
        · exact List.mem_append_left _ hp
      refine ih (upsertOne store q) p h1 ?_
      simp only [List.map_cons, List.mem_cons, not_or] at hid
      exact hid.2

/-! ### C9: delete removes exactly one document's chunks -/

/-- C9 amended: for a store of at most 1000 points (one scroll page) with
unique point ids, `delete_document name` fails with not-found when nothing
matches and leaves the state unchanged; otherwise it removes exactly the
points whose source is `name`, reports the count of removed chunks and the
first matching point's metadata snapshot, leaves every other document's
chunk count unchanged, and an immediate second delete of the same name
fails with not-found without touching the state. -/
theorem c9_delete_exact (st : SysState) (name : String)
    (hnodup : (st.store.map Point.id).Nodup)
    (hlen : st.store.length ≤ 1000) :
    (st.store.filter (fun p => p.payload.source = name) = [] →
        delete_document st name = (st, .error ("Document " ++ name ++ " not found"))) ∧
    (∀ p0 rest, st.store.filter (fun p => p.payload.source = name) = p0 :: rest →
        (delete_document st name).1.store =
          st.store.filter (fun p => ¬ p.payload.source = name) ∧
        (delete_document st name).2 =
          .ok { document_name := name
                deleted_chunks :=
                  (st.store.filter (fun p => p.payload.source = name)).length
                deleted_at := st.clock
                document_metadata := p0.payload.document_metadata } ∧
        (∀ other, other ≠ name →
            ((delete_document st name).1.store.filter
                (fun p => p.payload.source = other)).length =
              (st.store.filter (fun p => p.payload.source = other)).length) ∧
        (delete_document (delete_document st name).1 name).2 =
          .error ("Document " ++ name ++ " not found") ∧
        (delete_document (delete_document st name).1 name).1 =
          (delete_document st name).1) := by
  have hscroll := scroll_some_eq_filter st.store name 1000 hlen
  constructor
  · intro hempty
    simp only [delete_document, hscroll, hempty]
  · intro p0 rest hcons
    have hpage : scroll st.store (some name) 1000 = p0 :: rest := hscroll.trans hcons
    have hstore' : (delete_document st name).1.store =
        st.store.filter (fun p => ¬ p.payload.source = name) := by
      simp only [delete_document, hpage]
      refine List.filter_congr ?_
      intro p hp
      have hiff : ((p0 :: rest).map Point.id).contains p.id = true ↔
          p.payload.source = name := by
        constructor
        · intro hmem
          obtain ⟨qq, hq, hqid⟩ := List.mem_map.mp (List.elem_iff.mp hmem)
          have hq' : qq ∈ st.store.filter (fun p => p.payload.source = name) := by
            rw [hcons]
            exact hq
          obtain ⟨hqmem, hqsrc⟩ := List.mem_filter.mp hq'
          have heq : qq = p := point_eq_of_id_eq st.store hnodup hqmem hp hqid
          rw [← heq]
          simpa using hqsrc
        · intro hsrc
          have hp' : p ∈ st.store.filter (fun p => p.payload.source = name) :=
            List.mem_filter.mpr ⟨hp, by simpa using hsrc⟩
          rw [hcons] at hp'
          exact List.elem_iff.mpr (List.mem_map.mpr ⟨p, hp', rfl⟩)
      exact decide_eq_decide.mpr (not_congr hiff)
    have hrec : (delete_document st name).2 =
        .ok { document_name := name
              deleted_chunks :=
                (st.store.filter (fun p => p.payload.source = name)).length
              deleted_at := st.clock
              document_metadata := p0.payload.document_metadata } := by
      simp only [delete_document, hpage]
      simp [hcons]
    have hstore'len : (delete_document st name).1.store.length ≤ 1000 := by
      rw [hstore']
      exact le_trans (List.length_filter_le _ _) hlen
    have hempty2 : (delete_document st name).1.store.filter
        (fun p => p.payload.source = name) = [] := by
      rw [hstore', List.filter_filter]
      refine List.filter_eq_nil_iff.mpr ?_
      intro p hp
      by_cases h : p.payload.source = name <;> simp [h]
    have h2 : delete_document (delete_document st name).1 name =
        ((delete_document st name).1, .error ("Document " ++ name ++ " not found")) := by
      generalize hg : (delete_document st name).1 = st2 at hstore'len hempty2
      simp only [delete_document, scroll_some_eq_filter st2.store name 1000 hstore'len,
        hempty2]
    refine ⟨hstore', hrec, ?_, by rw [h2], by rw [h2]⟩
    intro other hother
    rw [hstore', List.filter_filter]
    refine congrArg List.length (List.filter_congr ?_)
    intro p hp
    by_cases hsrc : p.payload.source = other
    · simp [hsrc, hother]
    · simp [hsrc]

/-- A small concrete point for the C9 witness. -/
def c9p (i : Nat) (src : String) : Point :=
  { id := i, vector := [(i : Int)]
    payload := { text := ['t'], source := src, chunk_index := 0, total_chunks := 2,
                 document_metadata := [("filename", .vstr src)], chunk_length := 1,
                 created_at := 0 } }

/-- Two chunks of document "a" and one of document "b". -/
def c9state : SysState :=
  { store := [c9p 0 "a", c9p 1 "a", c9p 2 "b"], clock := 5, nextId := 3 }

theorem c9_delete_exact_witness :
    (delete_document c9state "a").1.store = [c9p 2 "b"] ∧
    (delete_document (delete_document c9state "a").1 "a").2 =
      .error ("Document " ++ "a" ++ " not found") := by
  have h := (c9_delete_exact c9state "a" (by decide) (by decide)).2
    (c9p 0 "a") [c9p 1 "a"] (by decide)
  exact ⟨h.1.trans (by decide), h.2.2.2.1⟩

/-! ### Truncation counterexamples: a collection of 1001 points

Every management operation scrolls a single page of 1000 points, so on a
collection of 1001 chunks of one document the 1001st point is invisible to
`delete`, `update` and `statistics`. -/

/-- The `i`-th of 1001 identical chunks of document "doc". -/
def bigPoint (i : Nat) : Point :=
  { id := i, vector := [1]
    payload := { text := ['x'], source := "doc", chunk_index := i, total_chunks := 1001,
                 document_metadata := [("file_size", .vnat 7)], chunk_length := 1,
                 created_at := 0 } }

/-- A collection holding 1001 chunks of one document. -/
def bigState : SysState :=
  { store := (List.range 1001).map bigPoint, clock := 0, nextId := 1001 }

theorem bigPoint_mem : bigPoint 1000 ∈ bigState.store :=
  List.mem_map.mpr ⟨1000, List.mem_range.mpr (by norm_num), rfl⟩

theorem bigState_scroll :
    scroll bigState.store (some "doc") 1000 = (List.range 1000).map bigPoint := by
  have hfilter : bigState.store.filter (fun p => p.payload.source = "doc") =
      bigState.store := by
    refine List.filter_eq_self.mpr ?_
    intro p hp
    obtain ⟨i, _, rfl⟩ := List.mem_map.mp hp
    rfl
  simp only [scroll, hfilter]
  show bigState.store.take 1000 = _
  simp only [bigState]
  rw [← List.map_take, List.take_range]
  norm_num

/-- Id preservation pushes through `enum`-indexed rewriting of a batch. -/
theorem enum_map_map_id (l : List Point) (f : Nat × Point → Point)
    (hf : ∀ jp : Nat × Point, (f jp).id = jp.2.id) :
    (l.enum.map f).map Point.id = l.map Point.id := by
  rw [List.map_map]
  have h1 : l.enum.map (Point.id ∘ f) = l.enum.map (fun jp => jp.2.id) :=
    List.map_congr_left (fun jp _ => hf jp)
  rw [h1, show (fun (jp : Nat × Point) => jp.2.id) = Point.id ∘ Prod.snd from rfl,
    ← List.map_map, List.enum_map_snd]

/-- C9 counterexample: the claim says `delete(name)` removes *exactly* the
points whose source is `name`, for every collection state.  On the
1001-chunk collection the single scroll page only reaches the first 1000
ids, so the matching point `bigPoint 1000` survives the delete. -/
theorem c9_delete_truncation_counterexample :
    bigPoint 1000 ∈ bigState.store ∧
    (bigPoint 1000).payload.source = "doc" ∧
    bigPoint 1000 ∈ (delete_document bigState "doc").1.store := by
  refine ⟨bigPoint_mem, rfl, ?_⟩
  rcases hpage : scroll bigState.store (some "doc") 1000 with _ | ⟨p0, rest⟩
  · have hcon := congrArg List.length (bigState_scroll.symm.trans hpage)
    simp at hcon
  · have hval : p0 :: rest = (List.range 1000).map bigPoint :=
      hpage.symm.trans bigState_scroll
    have hids : (p0 :: rest).map (fun p => p.id) = List.range 1000 := by
      rw [hval, List.map_map]
      exact (List.map_congr_left (fun i _ => rfl)).trans (List.map_id _)
    simp only [delete_document, hpage]
    refine List.mem_filter.mpr ⟨bigPoint_mem, ?_⟩
    rw [hids]
    simp only [List.elem_iff, decide_eq_true_eq]
    intro hcon
    have hlt : (bigPoint 1000).id < 1000 := by simpa [List.mem_range] using hcon
    have hid : (bigPoint 1000).id = 1000 := rfl
    omega

/-- The batch written back by one metadata update: every page point with
the patch merged into its snapshot and a per-point `updated_at` tick. -/
def updateBatch (clock : Nat) (patch : Dict) (page : List Point) : List Point :=
  page.enum.map (fun jp =>
    { jp.2 with
      payload := { jp.2.payload with
        document_metadata :=
          dictSet (dictMerge jp.2.payload.document_metadata patch) "updated_at"
            (.vnat (clock + jp.1)) } })

/-- `update_document_metadata` on a non-empty page upserts exactly the
rewritten page. -/
theorem update_document_metadata_shape (st : SysState) (name : String) (patch : Dict)
    (page : List Point) (hpage : scroll st.store (some name) 1000 = page)
    (hne : ¬page = []) :
    update_document_metadata st name patch =
      ({ store := upsert st.store (updateBatch st.clock patch page)
         clock := st.clock + (updateBatch st.clock patch page).length + 1
         nextId := st.nextId },
       .ok { document_name := name
             updated_chunks := (updateBatch st.clock patch page).length
             updated_metadata := patch
             updated_at := st.clock + (updateBatch st.clock patch page).length }) := by
  simp only [update_document_metadata, hpage, updateBatch]
  rw [if_neg hne]

/-- A point of the store whose id does not occur in the scroll page is
untouched by a metadata update. -/
theorem update_keeps_fresh_point (st : SysState) (name : String) (patch : Dict)
    (page : List Point) (hpage : scroll st.store (some name) 1000 = page)
    (hne : ¬page = []) (p : Point) (hp : p ∈ st.store)
    (hfresh : p.id ∉ page.map Point.id) :
    p ∈ (update_document_metadata st name patch).1.store := by
  rw [update_document_metadata_shape st name patch page hpage hne]
  refine mem_upsert_of_fresh_id _ _ _ hp ?_
  have heq : (updateBatch st.clock patch page).map Point.id = page.map Point.id :=
    enum_map_map_id page _ (fun jp => rfl)
  rw [heq]
  exact hfresh

/-- C5 counterexample: the claim says updateMetadata rewrites *each*
matching point, for every stored document.  On the 1001-chunk collection
the update only touches the first scroll page: `bigPoint 1000` keeps its
old snapshot, with no `"a"` key and no `"updated_at"`. -/
theorem c5_update_truncation_counterexample :
    (bigPoint 1000).payload.source = "doc" ∧
    dictGet (bigPoint 1000).payload.document_metadata "a" = none ∧
    bigPoint 1000 ∈
      (update_document_metadata bigState "doc" [("a", .vnat 1)]).1.store := by
  refine ⟨rfl, rfl, ?_⟩
  have hne : ¬((List.range 1000).map bigPoint = []) := fun h => by
    have hl := congrArg List.length h
    simp at hl
  have hfr : (bigPoint 1000).id ∉ ((List.range 1000).map bigPoint).map Point.id := by
    have h1 : List.map (Point.id ∘ bigPoint) (List.range 1000) =
        List.map id (List.range 1000) :=
      List.map_congr_left (fun i _ => rfl)
    rw [List.map_map, h1, List.map_id]
    intro hcon
    have hlt : (bigPoint 1000).id < 1000 := List.mem_range.mp hcon
    have hid : (bigPoint 1000).id = 1000 := rfl
    omega
  exact update_keeps_fresh_point bigState "doc" [("a", .vnat 1)] _ bigState_scroll hne
    (bigPoint 1000) bigPoint_mem hfr

/-- C8 counterexample: the claim says statistics reports `totalChunks`
equal to the number of stored points, for every collection state; on the
1001-point collection it reports 1000. -/
theorem c8_statistics_truncation_counterexample :
    (get_document_statistics bigState).total_chunks = 1000 ∧
    bigState.store.length = 1001 := by
  constructor
  · simp only [get_document_statistics, scroll]
    rw [List.length_take]
    show min 1000 bigState.store.length = 1000
    simp only [bigState]
    rw [List.length_map, List.length_range]
    omega
  · show bigState.store.length = 1001
    simp only [bigState]
    rw [List.length_map, List.length_range]

/-! ### C8: statistics -/

/-- C8 amended: for every collection of at most 1000 points (one scroll
page), statistics reports the stored point count, the number of distinct
sources, the file size summed once per chunk (not deduplicated per
document), the summed chunk lengths, and the mean chunk length — 0 rather
than a division error on an empty collection. -/
theorem c8_statistics_formulas (st : SysState) (hlen : st.store.length ≤ 1000) :
    (get_document_statistics st).total_chunks = st.store.length ∧
    (get_document_statistics st).total_documents =
      (st.store.map (fun p => p.payload.source)).toFinset.card ∧
    (get_document_statistics st).total_file_size =
      (st.store.map (fun p => dictGetNat p.payload.document_metadata "file_size")).sum ∧
    (get_document_statistics st).total_text_length =
      (st.store.map (fun p => p.payload.chunk_length)).sum ∧
    (get_document_statistics st).average_chunk_size =
      ((get_document_statistics st).total_text_length : ℚ) /
        ((get_document_statistics st).total_chunks : ℚ) ∧
    (st.store = [] → (get_document_statistics st).average_chunk_size = 0) := by
  have hs := scroll_none_eq st.store 1000 hlen
  refine ⟨?_, ?_, ?_, ?_, ?_, ?_⟩
  · simp only [get_document_statistics, hs]
  · simp only [get_document_statistics, hs]
    exact (List.card_toFinset _).symm
  · simp only [get_document_statistics, hs]
  · simp only [get_document_statistics, hs]
  · simp only [get_document_statistics, hs]
    split_ifs with h
    · rfl
    · have h0 : st.store.length = 0 := by omega
      rw [h0]
      norm_num
  · intro h0
    have hs2 : scroll st.store none 1000 = [] := by
      rw [h0]
      exact scroll_none_eq [] 1000 (by simp)
    simp [get_document_statistics, hs2]

/-- One of the eight points of the two-document statistics scenario. -/
def c8p (i : Nat) (src : String) (fs : Nat) : Point :=
  { id := i, vector := [1]
    payload := { text := ['t'], source := src, chunk_index := 0, total_chunks := 3,
                 document_metadata := [("file_size", .vnat fs)], chunk_length := 4,
                 created_at := 0 } }

/-- Document "d1" of size 10 in 3 chunks and "d2" of size 20 in 5 chunks. -/
def c8state : SysState :=
  { store := [c8p 0 "d1" 10, c8p 1 "d1" 10, c8p 2 "d1" 10, c8p 3 "d2" 20,
              c8p 4 "d2" 20, c8p 5 "d2" 20, c8p 6 "d2" 20, c8p 7 "d2" 20]
    clock := 0, nextId := 8 }

theorem c8_statistics_formulas_witness :
    (get_document_statistics c8state).total_chunks = 8 ∧
    (get_document_statistics c8state).total_documents = 2 ∧
    (get_document_statistics c8state).total_file_size = 10 * 3 + 20 * 5 :=
  ⟨(c8_statistics_formulas c8state (by decide)).1.trans (by decide),
   (c8_statistics_formulas c8state (by decide)).2.1.trans (by decide),
   (c8_statistics_formulas c8state (by decide)).2.2.1.trans (by decide)⟩

/-! ### Dictionary lemmas -/

theorem dictGet_dictSet (d : Dict) (k : String) (v : Val) (k' : String) :
    dictGet (dictSet d k v) k' = if k = k' then some v else dictGet d k' := by
  induction d with
  | nil =>
      simp only [dictSet, dictGet]
  | cons hd tl ih =>
      obtain ⟨a, b⟩ := hd
      by_cases ha : a = k
      · subst ha
        simp only [dictSet, if_pos rfl, dictGet]
        by_cases hk : a = k'
        · rw [if_pos hk, if_pos hk]
        · rw [if_neg hk, if_neg hk, if_neg hk]
      · simp only [dictSet, if_neg ha, dictGet, ih]
        by_cases hk : a = k'
        · rw [if_pos hk, if_neg (fun h => ha (hk.trans h.symm)), if_pos hk]
        · rw [if_neg hk, if_neg hk]

theorem mem_keys_of_dictGet_some (d : Dict) (k : String) (v : Val)
    (h : dictGet d k = some v) : k ∈ d.map Prod.fst := by
  induction d with
  | nil => cases h
  | cons hd tl ih =>
      obtain ⟨a, b⟩ := hd
      simp only [dictGet] at h
      by_cases ha : a = k
      · simp [ha]
      · rw [if_neg ha] at h
        exact List.mem_cons_of_mem _ (ih h)

/-- Reading a merged dictionary: keys of the patch win, everything else
falls through to the base — Python's `{**a, **b}`. -/
theorem dictGet_dictMerge (b : Dict) :
    ∀ (a : Dict) (k : String), (b.map Prod.fst).Nodup →
      dictGet (dictMerge a b) k =
        match dictGet b k with
        | some v => some v
        | none => dictGet a k := by
  induction b with
  | nil => intro a k _; rfl
  | cons hd tl ih =>
      intro a k hnodup
      obtain ⟨kb, vb⟩ := hd
      have hnotin : kb ∉ tl.map Prod.fst := by
        simp only [List.map_cons, List.nodup_cons] at hnodup
        exact hnodup.1
      have htl : (tl.map Prod.fst).Nodup := by
        simp only [List.map_cons, List.nodup_cons] at hnodup
        exact hnodup.2
      show dictGet (dictMerge (dictSet a kb vb) tl) k = _
      rw [ih (dictSet a kb vb) k htl]
      cases hrest : dictGet tl k with
      | some v =>
          have hkb : ¬kb = k := fun h =>
            hnotin (h ▸ mem_keys_of_dictGet_some tl k v hrest)
          simp only [dictGet, if_neg hkb, hrest]
      | none =>
          rw [dictGet_dictSet]
          by_cases hkb : kb = k
          · simp only [dictGet, if_pos hkb, hrest]
          · simp only [dictGet, if_neg hkb, hrest]

/-- Reading one updated snapshot: `updated_at` freshly stamped aside,
patch keys overwrite, all other keys fall through to the old snapshot. -/
theorem dictGet_updated_snapshot (m patch : Dict) (v : Val) (k : String)
    (hk : ¬k = "updated_at") (hpatch : (patch.map Prod.fst).Nodup) :
    dictGet (dictSet (dictMerge m patch) "updated_at" v) k =
      match dictGet patch k with
      | some w => some w
      | none => dictGet m k := by
  rw [dictGet_dictSet, if_neg (fun h => hk h.symm)]
  exact dictGet_dictMerge patch m k hpatch

/-- Every member of an update batch is a page point with its snapshot
replaced by the merged one. -/
theorem mem_updateBatch (clock : Nat) (patch : Dict) (page : List Point)
    (q : Point) (hq : q ∈ updateBatch clock patch page) :
    ∃ j p, (j, p) ∈ page.enum ∧
      q = { p with
            payload := { p.payload with
              document_metadata :=
                dictSet (dictMerge p.payload.document_metadata patch) "updated_at"
                  (.vnat (clock + j)) } } := by
  obtain ⟨jp, hjp, rfl⟩ := List.mem_map.mp hq
  exact ⟨jp.1, jp.2, hjp, rfl⟩

theorem snd_mem_of_mem_enum {l : List Point} {j : Nat} {p : Point}
    (h : (j, p) ∈ l.enum) : p ∈ l := by
  rw [← List.enum_map_snd l]
  exact List.mem_map_of_mem Prod.snd h

/-- Positional characterization of one metadata update on a single-page
store with unique ids: every point keeps its position; non-matching points
are untouched; each matching point is replaced by itself with only its
metadata snapshot rewritten to the patch-merge plus a fresh
`updated_at`. -/
theorem update_positional (st : SysState) (name : String) (patch : Dict)
    (hnodup : (st.store.map Point.id).Nodup)
    (hlen : st.store.length ≤ 1000)
    (hne : ¬ st.store.filter (fun p => p.payload.source = name) = []) :
    (update_document_metadata st name patch).1.store.length = st.store.length ∧
    ∀ (j : Nat) (hj : j < st.store.length)
      (hj' : j < (update_document_metadata st name patch).1.store.length),
      (¬(st.store.get ⟨j, hj⟩).payload.source = name →
        (update_document_metadata st name patch).1.store.get ⟨j, hj'⟩ =
          st.store.get ⟨j, hj⟩) ∧
      ((st.store.get ⟨j, hj⟩).payload.source = name →
        ∃ t : Nat,
          (update_document_metadata st name patch).1.store.get ⟨j, hj'⟩ =
            { st.store.get ⟨j, hj⟩ with
              payload := { (st.store.get ⟨j, hj⟩).payload with
                document_metadata :=
                  dictSet
                    (dictMerge (st.store.get ⟨j, hj⟩).payload.document_metadata patch)
                    "updated_at" (.vnat t) } }) := by
  have hpage : scroll st.store (some name) 1000 =
      st.store.filter (fun p => p.payload.source = name) :=
    scroll_some_eq_filter st.store name 1000 hlen
  have hstoreeq : (update_document_metadata st name patch).1.store =
      upsert st.store (updateBatch st.clock patch
        (st.store.filter (fun p => p.payload.source = name))) := by
    rw [update_document_metadata_shape st name patch _ hpage hne]
  rw [hstoreeq]
  have hptsids : (updateBatch st.clock patch
        (st.store.filter (fun p => p.payload.source = name))).map Point.id =
      (st.store.filter (fun p => p.payload.source = name)).map Point.id :=
    enum_map_map_id _ _ (fun jp => rfl)
  have hpagesub : (st.store.filter (fun p => p.payload.source = name)).Sublist
      st.store := List.filter_sublist _
  have hptsnodup : ((updateBatch st.clock patch
        (st.store.filter (fun p => p.payload.source = name))).map Point.id).Nodup := by
    rw [hptsids]
    exact (hpagesub.map Point.id).nodup hnodup
  have hsub : ∀ q ∈ updateBatch st.clock patch
        (st.store.filter (fun p => p.payload.source = name)),
      ∃ p ∈ st.store, p.id = q.id := by
    intro q hq
    obtain ⟨j, p, hjp, rfl⟩ := mem_updateBatch _ _ _ q hq
    exact ⟨p, hpagesub.subset (snd_mem_of_mem_enum hjp), rfl⟩
  rw [upsert_eq_map _ st.store hsub hptsnodup]
  refine ⟨List.length_map _ _, ?_⟩
  intro j hj hj'
  have hget : (st.store.map (fun p =>
      match (updateBatch st.clock patch
          (st.store.filter (fun p => p.payload.source = name))).find?
          (fun q => q.id = p.id) with
      | some q => q
      | none => p)).get ⟨j, hj'⟩ =
      (fun p =>
        match (updateBatch st.clock patch
            (st.store.filter (fun p => p.payload.source = name))).find?
            (fun q => q.id = p.id) with
        | some q => q
        | none => p) (st.store.get ⟨j, hj⟩) := by
    rw [List.get_eq_getElem, List.get_eq_getElem, List.getElem_map]
  rw [hget]
  have hpmem : st.store.get ⟨j, hj⟩ ∈ st.store := List.get_mem st.store j hj
  constructor
  · intro hmatch
    have hfind : (updateBatch st.clock patch
        (st.store.filter (fun p => p.payload.source = name))).find?
        (fun q => q.id = (st.store.get ⟨j, hj⟩).id) = none := by
      refine List.find?_eq_none.mpr ?_
      intro q hq hcon
      obtain ⟨j', p', hjp, rfl⟩ := mem_updateBatch _ _ _ q hq
      have hp'mem : p' ∈ st.store := hpagesub.subset (snd_mem_of_mem_enum hjp)
      have hp'id : p'.id = (st.store.get ⟨j, hj⟩).id := by simpa using hcon
      have hpp : p' = st.store.get ⟨j, hj⟩ :=
        point_eq_of_id_eq st.store hnodup hp'mem hpmem hp'id
      have hp'src : p'.payload.source = name := by
        have := (List.mem_filter.mp (snd_mem_of_mem_enum hjp)).2
        simpa using this
      rw [hpp] at hp'src
      exact hmatch hp'src
    simp only [hfind]
  · intro hmatch
    have hidmem : (st.store.get ⟨j, hj⟩).id ∈ (updateBatch st.clock patch
        (st.store.filter (fun p => p.payload.source = name))).map Point.id := by
      rw [hptsids]
      exact List.mem_map_of_mem Point.id
        (List.mem_filter.mpr ⟨hpmem, by simpa using hmatch⟩)
    obtain ⟨q0, hq0mem, hq0id⟩ := List.mem_map.mp hidmem
    cases hfind : (updateBatch st.clock patch
        (st.store.filter (fun p => p.payload.source = name))).find?
        (fun q => q.id = (st.store.get ⟨j, hj⟩).id) with
    | none =>
        exact absurd (by simpa using hq0id)
          (List.find?_eq_none.mp hfind q0 hq0mem)
    | some q' =>
        have hq'mem : q' ∈ updateBatch st.clock patch
            (st.store.filter (fun p => p.payload.source = name)) :=
          List.mem_of_find?_eq_some hfind
        have hq'id : q'.id = (st.store.get ⟨j, hj⟩).id := by
          simpa using List.find?_some hfind
        obtain ⟨j', p', hjp, rfl⟩ := mem_updateBatch _ _ _ q' hq'mem
        have hp'mem : p' ∈ st.store := hpagesub.subset (snd_mem_of_mem_enum hjp)
        have hpp : p' = st.store.get ⟨j, hj⟩ :=
          point_eq_of_id_eq st.store hnodup hp'mem hpmem (by simpa using hq'id)
        refine ⟨st.clock + j', ?_⟩
        simp only [hfind]
        rw [hpp]

/-- C5 amended: on a single-page store (≤ 1000 points) with unique ids and
a duplicate-free patch, updateMetadata (i) fails with not-found (state
unchanged) when nothing matches; (ii) keeps every point's position, id,
stored vector and every payload field except the metadata snapshot, leaves
non-matching points entirely untouched, and rewrites each matching point's
snapshot to `{**old, **patch, "updated_at": now}` — so for reads, patch
keys win, all other keys are preserved; (iii) hence two sequential patches
`{a:1}` then `{a:2}` leave the stored metadata with `a = 2` and every
unrelated pre-existing key untouched. -/
theorem c5_update_frame_merge_sequential (st : SysState) (name : String) (patch : Dict)
    (hnodup : (st.store.map Point.id).Nodup)
    (hlen : st.store.length ≤ 1000)
    (hpatch : (patch.map Prod.fst).Nodup) :
    (st.store.filter (fun p => p.payload.source = name) = [] →
      update_document_metadata st name patch =
        (st, .error ("Document " ++ name ++ " not found"))) ∧
    (¬ st.store.filter (fun p => p.payload.source = name) = [] →
      (update_document_metadata st name patch).1.store.length = st.store.length ∧
      ∀ (j : Nat) (hj : j < st.store.length)
        (hj' : j < (update_document_metadata st name patch).1.store.length),
        ((update_document_metadata st name patch).1.store.get ⟨j, hj'⟩).id =
          (st.store.get ⟨j, hj⟩).id ∧
        ((update_document_metadata st name patch).1.store.get ⟨j, hj'⟩).vector =
          (st.store.get ⟨j, hj⟩).vector ∧
        ((update_document_metadata st name patch).1.store.get ⟨j, hj'⟩).payload.text =
          (st.store.get ⟨j, hj⟩).payload.text ∧
        ((update_document_metadata st name patch).1.store.get ⟨j, hj'⟩).payload.source =
          (st.store.get ⟨j, hj⟩).payload.source ∧
        ((update_document_metadata st name patch).1.store.get
            ⟨j, hj'⟩).payload.chunk_index =
          (st.store.get ⟨j, hj⟩).payload.chunk_index ∧
        ((update_document_metadata st name patch).1.store.get
            ⟨j, hj'⟩).payload.total_chunks =
          (st.store.get ⟨j, hj⟩).payload.total_chunks ∧
        ((update_document_metadata st name patch).1.store.get
            ⟨j, hj'⟩).payload.chunk_length =
          (st.store.get ⟨j, hj⟩).payload.chunk_length ∧
        ((update_document_metadata st name patch).1.store.get
            ⟨j, hj'⟩).payload.created_at =
          (st.store.get ⟨j, hj⟩).payload.created_at ∧
        (¬(st.store.get ⟨j, hj⟩).payload.source = name →
          (update_document_metadata st name patch).1.store.get ⟨j, hj'⟩ =
            st.store.get ⟨j, hj⟩) ∧
        ((st.store.get ⟨j, hj⟩).payload.source = name →
          ∃ t : Nat,
            ((update_document_metadata st name patch).1.store.get
                ⟨j, hj'⟩).payload.document_metadata =
              dictSet
                (dictMerge (st.store.get ⟨j, hj⟩).payload.document_metadata patch)
                "updated_at" (.vnat t) ∧
            ∀ k : String, ¬k = "updated_at" →
              dictGet ((update_document_metadata st name patch).1.store.get
                  ⟨j, hj'⟩).payload.document_metadata k =
                match dictGet patch k with
                | some w => some w
                | none =>
                    dictGet (st.store.get ⟨j, hj⟩).payload.document_metadata k)) ∧
    (¬ st.store.filter (fun p => p.payload.source = name) = [] →
      ∀ (j : Nat) (hj : j < st.store.length),
        (st.store.get ⟨j, hj⟩).payload.source = name →
        ∀ hj2 : j < (update_document_metadata
            (update_document_metadata st name [("a", Val.vnat 1)]).1
            name [("a", Val.vnat 2)]).1.store.length,
          dictGet ((update_document_metadata
              (update_document_metadata st name [("a", Val.vnat 1)]).1
              name [("a", Val.vnat 2)]).1.store.get
                ⟨j, hj2⟩).payload.document_metadata "a" = some (Val.vnat 2) ∧
          ∀ k : String, ¬k = "a" → ¬k = "updated_at" →
            dictGet ((update_document_metadata
                (update_document_metadata st name [("a", Val.vnat 1)]).1
                name [("a", Val.vnat 2)]).1.store.get
                  ⟨j, hj2⟩).payload.document_metadata k =
              dictGet (st.store.get ⟨j, hj⟩).payload.document_metadata k) := by
  have hpage := scroll_some_eq_filter st.store name 1000 hlen
  refine ⟨?_, ?_, ?_⟩
  · intro hempty
    rw [hempty] at hpage
    simp only [update_document_metadata, hpage]
    rw [if_pos trivial]
  · intro hne
    obtain ⟨hlen1, hpos⟩ := update_positional st name patch hnodup hlen hne
    refine ⟨hlen1, ?_⟩
    intro j hj hj'
    obtain ⟨hframe, hmatch⟩ := hpos j hj hj'
    by_cases hsrc : (st.store.get ⟨j, hj⟩).payload.source = name
    · obtain ⟨t, hteq⟩ := hmatch hsrc
      rw [hteq]
      exact ⟨rfl, rfl, rfl, rfl, rfl, rfl, rfl, rfl,
        fun hcon => absurd hsrc hcon,
        fun _ => ⟨t, rfl,
          fun k hk => dictGet_updated_snapshot _ patch _ k hk hpatch⟩⟩
    · rw [hframe hsrc]
      exact ⟨rfl, rfl, rfl, rfl, rfl, rfl, rfl, rfl, fun _ => rfl,
        fun hcon => absurd hcon hsrc⟩
  · intro hne j hj hsrc hj2
    obtain ⟨hlen1, hpos1⟩ :=
      update_positional st name [("a", Val.vnat 1)] hnodup hlen hne
    have hids1 : (update_document_metadata st name [("a", Val.vnat 1)]).1.store.map
        Point.id = st.store.map Point.id := by
      refine List.ext_get (by rw [List.length_map, List.length_map, hlen1]) ?_
      intro i h1 h2
      have hi1 : i < (update_document_metadata st name
          [("a", Val.vnat 1)]).1.store.length := by
        simpa using h1
      have hi0 : i < st.store.length := by
        simpa using h2
      rw [List.get_eq_getElem, List.get_eq_getElem, List.getElem_map, List.getElem_map]
      obtain ⟨hframe, hmatch⟩ := hpos1 i hi0 hi1
      by_cases hs : (st.store.get ⟨i, hi0⟩).payload.source = name
      · obtain ⟨t, hteq⟩ := hmatch hs
        rw [List.get_eq_getElem] at hteq
        rw [List.get_eq_getElem] at hteq
        rw [hteq]
      · have := hframe hs
        rw [List.get_eq_getElem] at this
        rw [List.get_eq_getElem] at this
        rw [this]
    have hnodup1 : ((update_document_metadata st name
        [("a", Val.vnat 1)]).1.store.map Point.id).Nodup := by
      rw [hids1]
      exact hnodup
    have hlen1' : (update_document_metadata st name
        [("a", Val.vnat 1)]).1.store.length ≤ 1000 := by
      rw [hlen1]
      exact hlen
    have hj1 : j < (update_document_metadata st name
        [("a", Val.vnat 1)]).1.store.length := by
      rw [hlen1]
      exact hj
    obtain ⟨hframe1, hmatch1⟩ := hpos1 j hj hj1
    obtain ⟨t1, ht1⟩ := hmatch1 hsrc
    have hsrc1 : ((update_document_metadata st name
        [("a", Val.vnat 1)]).1.store.get ⟨j, hj1⟩).payload.source = name := by
      rw [ht1]
      exact hsrc
    have hne1 : ¬ (update_document_metadata st name
        [("a", Val.vnat 1)]).1.store.filter
          (fun p => p.payload.source = name) = [] := by
      intro hnil
      have hmem1 := List.get_mem (update_document_metadata st name
        [("a", Val.vnat 1)]).1.store j hj1
      exact (List.filter_eq_nil_iff.mp hnil) _ hmem1 (by simpa using hsrc1)
    obtain ⟨hlen2, hpos2⟩ := update_positional
      (update_document_metadata st name [("a", Val.vnat 1)]).1 name
      [("a", Val.vnat 2)] hnodup1 hlen1' hne1
    obtain ⟨hframe2, hmatch2⟩ := hpos2 j hj1 hj2
    obtain ⟨t2, ht2⟩ := hmatch2 hsrc1
    have hread2 : ∀ k : String, ¬k = "updated_at" →
        dictGet ((update_document_metadata
            (update_document_metadata st name [("a", Val.vnat 1)]).1
            name [("a", Val.vnat 2)]).1.store.get
              ⟨j, hj2⟩).payload.document_metadata k =
          match dictGet [("a", Val.vnat 2)] k with
          | some w => some w
          | none =>
              dictGet ((update_document_metadata st name
                [("a", Val.vnat 1)]).1.store.get
                  ⟨j, hj1⟩).payload.document_metadata k := by
      intro k hk
      rw [ht2]
      exact dictGet_updated_snapshot _ _ _ k hk (by decide)
    constructor
    · have h := hread2 "a" (by decide)
      rw [h]
      rfl
    · intro k hka hku
      have h := hread2 k hku
      rw [h]
      have hget2 : dictGet [("a", Val.vnat 2)] k = none := by
        simp only [dictGet]
        rw [if_neg (fun hh => hka hh.symm)]
      rw [hget2]
      have hread1 : dictGet ((update_document_metadata st name
          [("a", Val.vnat 1)]).1.store.get
            ⟨j, hj1⟩).payload.document_metadata k =
          match dictGet [("a", Val.vnat 1)] k with
          | some w => some w
          | none => dictGet (st.store.get ⟨j, hj⟩).payload.document_metadata k := by
        rw [ht1]
        exact dictGet_updated_snapshot _ _ _ k hku (by decide)
      rw [hread1]
      have hget1 : dictGet [("a", Val.vnat 1)] k = none := by
        simp only [dictGet]
        rw [if_neg (fun hh => hka hh.symm)]
      rw [hget1]

theorem c5_update_frame_merge_sequential_witness :
    (¬ c9state.store.filter (fun p => p.payload.source = "a") = []) ∧
    (update_document_metadata c9state "a" [("x", Val.vnat 9)]).1.store.length =
      c9state.store.length :=
  ⟨by decide,
   ((c5_update_frame_merge_sequential c9state "a" [("x", Val.vnat 9)] (by decide)
      (by decide) (by decide)).2.1 (by decide)).1⟩

/-! ### C4: the denormalized-metadata invariant -/

theorem dictErase_cons_keep (a : String) (b : Val) (tl : Dict) (k : String)
    (h : ¬a = k) : dictErase ((a, b) :: tl) k = (a, b) :: dictErase tl k := by
  simp [dictErase, List.filter_cons, h]

theorem dictErase_cons_drop (a : String) (b : Val) (tl : Dict) (k : String)
    (h : a = k) : dictErase ((a, b) :: tl) k = dictErase tl k := by
  simp [dictErase, List.filter_cons, h]

theorem dictErase_dictSet_same (d : Dict) (k : String) (v : Val) :
    dictErase (dictSet d k v) k = dictErase d k := by
  induction d with
  | nil =>
      show dictErase [(k, v)] k = dictErase [] k
      rw [dictErase_cons_drop _ _ _ _ rfl]
  | cons hd tl ih =>
      obtain ⟨a, b⟩ := hd
      by_cases ha : a = k
      · rw [show dictSet ((a, b) :: tl) k v = (k, v) :: tl from by simp [dictSet, ha],
          dictErase_cons_drop _ _ _ _ rfl, dictErase_cons_drop _ _ _ _ ha]
      · rw [show dictSet ((a, b) :: tl) k v = (a, b) :: dictSet tl k v from
            by simp [dictSet, ha],
          dictErase_cons_keep _ _ _ _ ha, dictErase_cons_keep _ _ _ _ ha, ih]

theorem dictErase_dictSet_ne (d : Dict) (k' : String) (v : Val) (k : String)
    (hk : ¬k' = k) :
    dictErase (dictSet d k' v) k = dictSet (dictErase d k) k' v := by
  induction d with
  | nil =>
      show dictErase [(k', v)] k = dictSet (dictErase [] k) k' v
      rw [dictErase_cons_keep _ _ _ _ hk]
      rfl
  | cons hd tl ih =>
      obtain ⟨a, b⟩ := hd
      by_cases ha : a = k'
      · subst ha
        rw [show dictSet ((a, b) :: tl) a v = (a, v) :: tl from by simp [dictSet],
          dictErase_cons_keep a v tl k hk, dictErase_cons_keep a b tl k hk,
          show dictSet ((a, b) :: dictErase tl k) a v = (a, v) :: dictErase tl k from
            by simp [dictSet]]
      · rw [show dictSet ((a, b) :: tl) k' v = (a, b) :: dictSet tl k' v from
            by simp [dictSet, ha]]
        by_cases hak : a = k
        · rw [dictErase_cons_drop _ _ _ _ hak, dictErase_cons_drop _ _ _ _ hak, ih]
        · rw [dictErase_cons_keep _ _ _ _ hak, dictErase_cons_keep _ _ _ _ hak, ih,
            show dictSet ((a, b) :: dictErase tl k) k' v =
                (a, b) :: dictSet (dictErase tl k) k' v from by simp [dictSet, ha]]

theorem dictErase_dictMerge (b : Dict) :
    ∀ (a : Dict) (k : String),
      dictErase (dictMerge a b) k =
        dictMerge (dictErase a k) (b.filter (fun kv => ¬kv.1 = k)) := by
  induction b with
  | nil => intro a k; rfl
  | cons hd tl ih =>
      intro a k
      obtain ⟨kb, vb⟩ := hd
      show dictErase (dictMerge (dictSet a kb vb) tl) k = _
      rw [ih (dictSet a kb vb) k]
      by_cases hkb : kb = k
      · have h1 : dictErase (dictSet a kb vb) k = dictErase a k := by
          rw [hkb]
          exact dictErase_dictSet_same a k vb
        have h2 : ((kb, vb) :: tl).filter (fun kv => ¬kv.1 = k) =
            tl.filter (fun kv => ¬kv.1 = k) := by
          rw [List.filter_cons]
          simp [hkb]
        rw [h1, h2]
      · have h1 : dictErase (dictSet a kb vb) k = dictSet (dictErase a k) kb vb :=
          dictErase_dictSet_ne a kb vb k hkb
        have h2 : ((kb, vb) :: tl).filter (fun kv => ¬kv.1 = k) =
            (kb, vb) :: tl.filter (fun kv => ¬kv.1 = k) := by
          rw [List.filter_cons]
          simp [hkb]
        rw [h1, h2]
        rfl

/-- The erased-`updated_at` view of an updated snapshot depends only on the
erased view of the old snapshot. -/
theorem dictErase_updated_snapshot (m patch : Dict) (v : Val) :
    dictErase (dictSet (dictMerge m patch) "updated_at" v) "updated_at" =
      dictMerge (dictErase m "updated_at")
        (patch.filter (fun kv => ¬kv.1 = "updated_at")) := by
  rw [dictErase_dictSet_same, dictErase_dictMerge]

theorem mkPoints_meta (valid_chunks : List (List Char)) (embeddings : List Vec)
    (filename : String) (dm : Dict) (baseId baseClock : Nat) :
    ∀ p ∈ mkPoints valid_chunks embeddings filename dm baseId baseClock,
      p.payload.document_metadata = dm := by
  intro p hp
  obtain ⟨ie, _, rfl⟩ := List.mem_map.mp hp
  rfl

theorem mkPoints_source (valid_chunks : List (List Char)) (embeddings : List Vec)
    (filename : String) (dm : Dict) (baseId baseClock : Nat) :
    ∀ p ∈ mkPoints valid_chunks embeddings filename dm baseId baseClock,
      p.payload.source = filename := by
  intro p hp
  obtain ⟨ie, _, rfl⟩ := List.mem_map.mp hp
  rfl

theorem mkPoints_ids (valid_chunks : List (List Char)) (embeddings : List Vec)
    (filename : String) (dm : Dict) (baseId baseClock : Nat) :
    (mkPoints valid_chunks embeddings filename dm baseId baseClock).map Point.id =
      (List.range (valid_chunks.zip embeddings).length).map (fun i => baseId + i) := by
  calc (mkPoints valid_chunks embeddings filename dm baseId baseClock).map Point.id
      = (valid_chunks.zip embeddings).enum.map
          ((fun i => baseId + i) ∘ Prod.fst) := by
        simp only [mkPoints, List.map_map]
        exact List.map_congr_left (fun ie _ => rfl)
    _ = ((valid_chunks.zip embeddings).enum.map Prod.fst).map (fun i => baseId + i) :=
        (List.map_map _ _ _).symm
    _ = (List.range (valid_chunks.zip embeddings).length).map (fun i => baseId + i) :=
        by rw [List.enum_map_fst]

theorem update_not_found (st : SysState) (name : String) (patch : Dict)
    (hempty : scroll st.store (some name) 1000 = []) :
    update_document_metadata st name patch =
      (st, .error ("Document " ++ name ++ " not found")) := by
  simp only [update_document_metadata, hempty]
  rw [if_pos trivial]

theorem delete_shape (st : SysState) (name : String) :
    (delete_document st name).1 = st ∨
    ∃ ids : List Nat,
      (delete_document st name).1 =
        { store := st.store.filter (fun p => ¬ ids.contains p.id)
          clock := st.clock + 1
          nextId := st.nextId } := by
  cases hpage : scroll st.store (some name) 1000 with
  | nil =>
      left
      simp only [delete_document, hpage]
  | cons p0 rest =>
      right
      exact ⟨(p0 :: rest).map (fun p => p.id), by simp only [delete_document, hpage]⟩

/-- Either an ingest call fails and returns the state unchanged, or it
appends one batch with one shared snapshot and fresh counter ids. -/
theorem process_pdf_shape (E : List (List Char) → List Vec)
    (chunk_size chunk_overlap fuel : Nat) (st : SysState) (text : List Char)
    (file_size page_count : Nat) (filename : String) (metadata : Dict) :
    (process_pdf E chunk_size chunk_overlap fuel st text file_size page_count
        filename metadata).1 = st ∨
    ∃ (vc : List (List Char)) (emb : List Vec),
      vc.length = emb.length ∧
      (process_pdf E chunk_size chunk_overlap fuel st text file_size page_count
          filename metadata).1 =
        { store := upsert st.store (mkPoints vc emb filename
            (mkDocumentMetadata filename file_size page_count vc.length st.clock
              text.length metadata) st.nextId (st.clock + 1))
          clock := st.clock + 1 + (mkPoints vc emb filename
            (mkDocumentMetadata filename file_size page_count vc.length st.clock
              text.length metadata) st.nextId (st.clock + 1)).length
          nextId := st.nextId + (mkPoints vc emb filename
            (mkDocumentMetadata filename file_size page_count vc.length st.clock
              text.length metadata) st.nextId (st.clock + 1)).length } := by
  by_cases h1 : pyStrip text = []
  · left
    simp only [process_pdf]
    rw [if_pos h1]
  · cases h2 : chunk_text chunk_size chunk_overlap text fuel with
    | none =>
        left
        simp only [process_pdf, h2]
        rw [if_neg h1]
    | some cks =>
        by_cases h3 : cks = []
        · left
          simp only [process_pdf, h2]
          rw [if_neg h1, if_pos h3]
        · by_cases h4 : cks.filter (fun c => pyStrip c ≠ []) = []
          · left
            simp only [process_pdf, h2]
            rw [if_neg h1, if_neg h3, if_pos h4]
          · cases h5 : get_embeddings E (cks.filter (fun c => pyStrip c ≠ [])) with
            | error e' =>
                left
                simp only [process_pdf, h2, h5]
                rw [if_neg h1, if_neg h3, if_neg h4]
            | ok embeddings =>
                by_cases h6 : (cks.filter (fun c => pyStrip c ≠ [])).length ≠
                    embeddings.length
                · left
                  simp only [process_pdf, h2, h5]
                  rw [if_neg h1, if_neg h3, if_neg h4, if_pos h6]
                · right
                  push_neg at h6
                  refine ⟨cks.filter (fun c => pyStrip c ≠ []), embeddings, h6, ?_⟩
                  simp only [process_pdf, h2, h5]
                  rw [if_neg h1, if_neg h3, if_neg h4, if_neg (not_not_intro h6)]

/-- Auxiliary invariant: counter ids are fresh, ids are duplicate-free,
and same-source points agree on their snapshots up to `updated_at`. -/
def Inv (st : SysState) : Prop :=
  (∀ p ∈ st.store, p.id < st.nextId) ∧
  (st.store.map Point.id).Nodup ∧
  (∀ p ∈ st.store, ∀ q ∈ st.store, p.payload.source = q.payload.source →
    dictErase p.payload.document_metadata "updated_at" =
      dictErase q.payload.document_metadata "updated_at")

/-- States reachable from the fresh deployment by ingest, metadata update
and delete, restricted as the counterexamples force: each ingest uses a
source name not currently stored, and each update happens while the store
fits one scroll page. -/
inductive GoodReach (E : List (List Char) → List Vec)
    (chunk_size chunk_overlap fuel : Nat) : SysState → Prop where
  | init : GoodReach E chunk_size chunk_overlap fuel initState
  | ingest (st : SysState) (text : List Char) (file_size page_count : Nat)
      (filename : String) (metadata : Dict)
      (h : GoodReach E chunk_size chunk_overlap fuel st)
      (hfresh : filename ∉ st.store.map (fun p => p.payload.source)) :
      GoodReach E chunk_size chunk_overlap fuel
        (process_pdf E chunk_size chunk_overlap fuel st text file_size page_count
          filename metadata).1
  | update (st : SysState) (name : String) (patch : Dict)
      (h : GoodReach E chunk_size chunk_overlap fuel st)
      (hlen : st.store.length ≤ 1000) :
      GoodReach E chunk_size chunk_overlap fuel
        (update_document_metadata st name patch).1
  | delete (st : SysState) (name : String)
      (h : GoodReach E chunk_size chunk_overlap fuel st) :
      GoodReach E chunk_size chunk_overlap fuel (delete_document st name).1

theorem goodReach_inv (E : List (List Char) → List Vec)
    (chunk_size chunk_overlap fuel : Nat) :
    ∀ st : SysState, GoodReach E chunk_size chunk_overlap fuel st → Inv st := by
  intro st h
  induction h with
  | init =>
      exact ⟨by simp [initState], by simp [initState], by simp [initState]⟩
  | ingest st text file_size page_count filename metadata h hfresh ih =>
      rcases process_pdf_shape E chunk_size chunk_overlap fuel st text file_size
        page_count filename metadata with hsh | ⟨vc, emb, hvce, hsh⟩
      · rw [hsh]
        exact ih
      · rw [hsh]
        obtain ⟨ih1, ih2, ih3⟩ := ih
        have hids := mkPoints_ids vc emb filename
          (mkDocumentMetadata filename file_size page_count vc.length st.clock
            text.length metadata) st.nextId (st.clock + 1)
        have hfreshids : ∀ q ∈ mkPoints vc emb filename
            (mkDocumentMetadata filename file_size page_count vc.length st.clock
              text.length metadata) st.nextId (st.clock + 1),
            ∀ p ∈ st.store, p.id ≠ q.id := by
          intro q hq p hp hcon
          have hqid : q.id ∈ (mkPoints vc emb filename
              (mkDocumentMetadata filename file_size page_count vc.length st.clock
                text.length metadata) st.nextId (st.clock + 1)).map Point.id :=
            List.mem_map_of_mem Point.id hq
          rw [hids] at hqid
          obtain ⟨i, hi, hqid⟩ := List.mem_map.mp hqid
          have := ih1 p hp
          omega
        have hptsnodup : ((mkPoints vc emb filename
            (mkDocumentMetadata filename file_size page_count vc.length st.clock
              text.length metadata) st.nextId (st.clock + 1)).map Point.id).Nodup := by
          rw [hids]
          exact List.Nodup.map (fun a b hab => by omega) (List.nodup_range _)
        have hupst := upsert_of_fresh _ st.store hfreshids hptsnodup
        have hlenpts : (mkPoints vc emb filename
            (mkDocumentMetadata filename file_size page_count vc.length st.clock
              text.length metadata) st.nextId (st.clock + 1)).length =
            (vc.zip emb).length := by
          rw [mkPoints_length, List.length_zip]
        refine ⟨?_, ?_, ?_⟩
        · intro p hp
          show p.id < st.nextId + (mkPoints vc emb filename
            (mkDocumentMetadata filename file_size page_count vc.length st.clock
              text.length metadata) st.nextId (st.clock + 1)).length
          have hp' : p ∈ st.store ++ mkPoints vc emb filename
              (mkDocumentMetadata filename file_size page_count vc.length st.clock
                text.length metadata) st.nextId (st.clock + 1) := by
            rw [← hupst]
            exact hp
          rcases List.mem_append.mp hp' with hmem | hmem
          · have := ih1 p hmem
            omega
          · have hqid : p.id ∈ (mkPoints vc emb filename
                (mkDocumentMetadata filename file_size page_count vc.length st.clock
                  text.length metadata) st.nextId (st.clock + 1)).map Point.id :=
              List.mem_map_of_mem Point.id hmem
            rw [hids] at hqid
            obtain ⟨i, hi, hqid⟩ := List.mem_map.mp hqid
            have hi' := List.mem_range.mp hi
            omega
        · show ((upsert st.store _).map Point.id).Nodup
          rw [hupst, List.map_append, List.nodup_append]
          refine ⟨ih2, hptsnodup, ?_⟩
          intro a ha hb
          obtain ⟨p, hp, rfl⟩ := List.mem_map.mp ha
          obtain ⟨q, hq, hqa⟩ := List.mem_map.mp hb
          exact hfreshids q hq p hp hqa.symm
        · intro p hp q hq hsrc
          have hp' : p ∈ st.store ++ mkPoints vc emb filename
              (mkDocumentMetadata filename file_size page_count vc.length st.clock
                text.length metadata) st.nextId (st.clock + 1) := by
            rw [← hupst]
            exact hp
          have hq' : q ∈ st.store ++ mkPoints vc emb filename
              (mkDocumentMetadata filename file_size page_count vc.length st.clock
                text.length metadata) st.nextId (st.clock + 1) := by
            rw [← hupst]
            exact hq
          rcases List.mem_append.mp hp' with hpm | hpm <;>
            rcases List.mem_append.mp hq' with hqm | hqm
          · exact ih3 p hpm q hqm hsrc
          · exfalso
            apply hfresh
            have hqsrc := mkPoints_source vc emb filename _ _ _ q hqm
            rw [← hqsrc, ← hsrc]
            exact List.mem_map_of_mem _ hpm
          · exfalso
            apply hfresh
            have hpsrc := mkPoints_source vc emb filename _ _ _ p hpm
            rw [← hpsrc, hsrc]
            exact List.mem_map_of_mem _ hqm
          · rw [mkPoints_meta vc emb filename _ _ _ p hpm,
              mkPoints_meta vc emb filename _ _ _ q hqm]
  | update st name patch h hlen ih =>
      obtain ⟨ih1, ih2, ih3⟩ := ih
      by_cases hfil : st.store.filter (fun p => p.payload.source = name) = []
      · have hpage : scroll st.store (some name) 1000 = [] := by
          rw [scroll_some_eq_filter st.store name 1000 hlen, hfil]
        rw [update_not_found st name patch hpage]
        exact ⟨ih1, ih2, ih3⟩
      · obtain ⟨hlen1, hpos⟩ := update_positional st name patch ih2 hlen hfil
        have hnid : (update_document_metadata st name patch).1.nextId = st.nextId := by
          rw [update_document_metadata_shape st name patch _
            (scroll_some_eq_filter st.store name 1000 hlen) hfil]
        refine ⟨?_, ?_, ?_⟩
        · intro p hp
          rw [hnid]
          obtain ⟨⟨i, hi⟩, hgi⟩ := List.mem_iff_get.mp hp
          have hi0 : i < st.store.length := by
            rw [← hlen1]
            exact hi
          obtain ⟨hfr, hma⟩ := hpos i hi0 hi
          by_cases hs : (st.store.get ⟨i, hi0⟩).payload.source = name
          · obtain ⟨t, ht⟩ := hma hs
            have hpid : p.id = (st.store.get ⟨i, hi0⟩).id := by
              rw [← hgi, ht]
            rw [hpid]
            exact ih1 _ (List.get_mem st.store i hi0)
          · rw [← hgi, hfr hs]
            exact ih1 _ (List.get_mem st.store i hi0)
        · have hids : (update_document_metadata st name patch).1.store.map Point.id =
              st.store.map Point.id := by
            refine List.ext_get (by rw [List.length_map, List.length_map, hlen1]) ?_
            intro i h1 h2
            have hi1 : i < (update_document_metadata st name patch).1.store.length := by
              simpa using h1
            have hi0 : i < st.store.length := by
              simpa using h2
            rw [List.get_eq_getElem, List.get_eq_getElem, List.getElem_map,
              List.getElem_map]
            obtain ⟨hfr, hma⟩ := hpos i hi0 hi1
            by_cases hs : (st.store.get ⟨i, hi0⟩).payload.source = name
            · obtain ⟨t, ht⟩ := hma hs
              rw [List.get_eq_getElem] at ht
              rw [List.get_eq_getElem] at ht
              rw [ht]
            · have hfr' := hfr hs
              rw [List.get_eq_getElem] at hfr'
              rw [List.get_eq_getElem] at hfr'
              rw [hfr']
          rw [hids]
          exact ih2
        · intro p hp q hq hsrc
          obtain ⟨⟨i, hi⟩, hgi⟩ := List.mem_iff_get.mp hp
          obtain ⟨⟨j, hjj⟩, hgj⟩ := List.mem_iff_get.mp hq
          have hi0 : i < st.store.length := by
            rw [← hlen1]
            exact hi
          have hj0 : j < st.store.length := by
            rw [← hlen1]
            exact hjj
          obtain ⟨hfri, hmai⟩ := hpos i hi0 hi
          obtain ⟨hfrj, hmaj⟩ := hpos j hj0 hjj
          by_cases hsi : (st.store.get ⟨i, hi0⟩).payload.source = name
          · by_cases hsj : (st.store.get ⟨j, hj0⟩).payload.source = name
            · obtain ⟨t1, ht1⟩ := hmai hsi
              obtain ⟨t2, ht2⟩ := hmaj hsj
              rw [← hgi, ht1, ← hgj, ht2]
              show dictErase (dictSet
                  (dictMerge (st.store.get ⟨i, hi0⟩).payload.document_metadata patch)
                  "updated_at" (Val.vnat t1)) "updated_at" =
                dictErase (dictSet
                  (dictMerge (st.store.get ⟨j, hj0⟩).payload.document_metadata patch)
                  "updated_at" (Val.vnat t2)) "updated_at"
              rw [dictErase_updated_snapshot, dictErase_updated_snapshot,
                ih3 _ (List.get_mem st.store i hi0) _ (List.get_mem st.store j hj0)
                  (hsi.trans hsj.symm)]
            · exfalso
              obtain ⟨t1, ht1⟩ := hmai hsi
              apply hsj
              have hpsrc : p.payload.source = name := by
                rw [← hgi, ht1]
                exact hsi
              have hqsrc : q.payload.source =
                  (st.store.get ⟨j, hj0⟩).payload.source := by
                rw [← hgj, hfrj hsj]
              rw [← hqsrc, ← hsrc]
              exact hpsrc
          · by_cases hsj : (st.store.get ⟨j, hj0⟩).payload.source = name
            · exfalso
              obtain ⟨t2, ht2⟩ := hmaj hsj
              apply hsi
              have hqsrc : q.payload.source = name := by
                rw [← hgj, ht2]
                exact hsj
              have hpsrc : p.payload.source =
                  (st.store.get ⟨i, hi0⟩).payload.source := by
                rw [← hgi, hfri hsi]
              rw [← hpsrc, hsrc]
              exact hqsrc
            · have h1 : p.payload.source =
                  (st.store.get ⟨i, hi0⟩).payload.source := by
                rw [← hgi, hfri hsi]
              have h2 : q.payload.source =
                  (st.store.get ⟨j, hj0⟩).payload.source := by
                rw [← hgj, hfrj hsj]
              rw [← hgi, hfri hsi, ← hgj, hfrj hsj]
              exact ih3 _ (List.get_mem st.store i hi0) _ (List.get_mem st.store j hj0)
                (by rw [← h1, ← h2]; exact hsrc)
  | delete st name h ih =>
      rcases delete_shape st name with hsh | ⟨ids, hsh⟩
      · rw [hsh]
        exact ih
      · rw [hsh]
        obtain ⟨ih1, ih2, ih3⟩ := ih
        refine ⟨?_, ?_, ?_⟩
        · intro p hp
          exact ih1 p (List.mem_of_mem_filter hp)
        · exact ((List.filter_sublist _).map Point.id).nodup ih2
        · intro p hp q hq hsrc
          exact ih3 p (List.mem_of_mem_filter hp) q (List.mem_of_mem_filter hq) hsrc

/-- **C4.** At every state reachable by ingests of filenames not currently
stored, metadata updates issued while the store fits one scroll page, and
deletes, all stored points sharing a source carry the same
document-metadata snapshot up to the `updated_at` stamp; and ingest stamps
the one snapshot it builds identically into every point of its batch. -/
theorem c4_denormalized_metadata_invariant
    (E : List (List Char) → List Vec) (chunk_size chunk_overlap fuel : Nat)
    (st : SysState) (h : GoodReach E chunk_size chunk_overlap fuel st) :
    (∀ p ∈ st.store, ∀ q ∈ st.store, p.payload.source = q.payload.source →
      dictErase p.payload.document_metadata "updated_at" =
        dictErase q.payload.document_metadata "updated_at") ∧
    (∀ (valid_chunks : List (List Char)) (embeddings : List Vec)
      (filename : String) (dm : Dict) (baseId baseClock : Nat),
      ∀ p ∈ mkPoints valid_chunks embeddings filename dm baseId baseClock,
        p.payload.document_metadata = dm) :=
  ⟨(goodReach_inv E chunk_size chunk_overlap fuel st h).2.2,
   fun valid_chunks embeddings filename dm baseId baseClock =>
     mkPoints_meta valid_chunks embeddings filename dm baseId baseClock⟩

/-- An eight-character document chunked at size 5 / overlap 2: three
chunks, three points, one shared snapshot. -/
def c4wtext : List Char := List.replicate 8 'a'

def c4wst : SysState :=
  (process_pdf unitProvider 5 2 10 initState c4wtext 3 1 "d" []).1

def c4wdm : Dict :=
  [("filename", .vstr "d"), ("file_size", .vnat 3), ("page_count", .vnat 1),
   ("total_chunks", .vnat 3), ("processed_at", .vnat 0), ("text_length", .vnat 8)]

def c4P0 : Point :=
  { id := 0, vector := [1],
    payload := { text := ['a', 'a', 'a', 'a', 'a'], source := "d",
                 chunk_index := 0, total_chunks := 3,
                 document_metadata := c4wdm, chunk_length := 5, created_at := 1 } }

def c4P1 : Point :=
  { id := 1, vector := [1],
    payload := { text := ['a', 'a', 'a', 'a', 'a'], source := "d",
                 chunk_index := 1, total_chunks := 3,
                 document_metadata := c4wdm, chunk_length := 5, created_at := 2 } }

theorem c4_denormalized_metadata_invariant_witness :
    c4P0 ∈ c4wst.store ∧ c4P1 ∈ c4wst.store ∧
    c4P0.payload.source = c4P1.payload.source ∧
    dictErase c4P0.payload.document_metadata "updated_at" =
      dictErase c4P1.payload.document_metadata "updated_at" := by
  have h : GoodReach unitProvider 5 2 10 c4wst :=
    GoodReach.ingest initState c4wtext 3 1 "d" [] GoodReach.init (by decide)
  exact ⟨by decide, by decide, by decide,
    (c4_denormalized_metadata_invariant unitProvider 5 2 10 c4wst h).1
      c4P0 (by decide) c4P1 (by decide) (by decide)⟩

/-- The state after ingesting a 3-character and then a 4-character text,
both under the filename `"d"`. -/
def c4stA : SysState :=
  (process_pdf unitProvider 5 1 10 initState (List.replicate 3 'a') 3 1 "d" []).1

def c4stB : SysState :=
  (process_pdf unitProvider 5 1 10 c4stA (List.replicate 4 'b') 4 1 "d" []).1

/-- C4 counterexample: the claim as stated quantifies over *any* sequence
of operations.  Ingesting a second document under an already-stored
filename (which `process_pdf` never rejects) leaves two stored points with
the same source but different snapshots — here they disagree on
`text_length` (3 vs 4), not merely on `updated_at`. -/
theorem c4_reingest_same_name_counterexample :
    ∃ p ∈ c4stB.store, ∃ q ∈ c4stB.store,
      p.payload.source = q.payload.source ∧
      dictGet p.payload.document_metadata "text_length" ≠
        dictGet q.payload.document_metadata "text_length" := by
  decide

end RagApp
